import Mathlib

/-!
# go-secrets/common: `GetSecret` and `GetCurrentFuncName`

A shallow embedding of `src/go-secrets/common/common.go`.

* Go `string` and `[]byte` values are byte sequences (`GoString`).
* The process environment, the AWS session constructor and the operation
  `GetSecretValue` are fields of a `System`, a state machine for everything
  outside the function; `common.GetSecret` is the function in state-passing
  style. A `World` is the special case of operations that are pure functions
  of their arguments, and `GetSecret` is the run in such a world with the
  calls recorded. The call stack and the symbol table consulted by package
  `runtime` are fields of a `Runtime`.
* The standard-library functions the file calls (`strconv.Itoa`,
  `base64.StdEncoding.Decode`, `json.Unmarshal`, `utf8.DecodeRune`, ...) are
  modelled as executable definitions under their Go names.
* `GetSecret` returns an `Outcome`: the two Go results plus the sequence of
  externally visible events (calls on the world, then log lines).
* Namespace `sdk` models what aws-sdk-go does between a call of
  `GetSecretValue` and the network: parameter validation and the default
  retryer.
* Go `int` is taken to be 64 bits wide.

The library models follow the documented behaviour of the Go packages. For the
JSON decoder three facts are proved about the model itself: more recursion
fuel never changes a parse (`parseValue_fuel_enough`), the body of a scanned
string literal always unquotes (`unquote_of_scanString`), and an `Unmarshal`
that reports a syntax error has left the struct as it was
(`Unmarshal_syntax_error`).
-/

namespace GoSecrets

/-! ## Bytes and strings -/

/-- One Go `byte`. -/
abbrev Byte := Fin 256

/-- Truncating conversion `byte(n)`. -/
def toByte (n : Nat) : Byte := ⟨n % 256, Nat.mod_lt n (by decide)⟩

/-- Go `string` / `[]byte`: a sequence of bytes. -/
abbrev GoString := List Byte

namespace utf8

/-- The rune `unicode.ReplacementChar` (`utf8.RuneError`), U+FFFD. -/
def RuneError : Nat := 0xFFFD

/-- Model of `utf8.EncodeRune` / `utf8.AppendRune`: the bytes written for rune `r`.
Surrogates and values above `MaxRune` are written as `RuneError`. -/
def EncodeRune (r : Nat) : GoString :=
  if r ≤ 0x7F then [toByte r]
  else if r ≤ 0x7FF then [toByte (0xC0 + r / 64), toByte (0x80 + r % 64)]
  else if 0x10FFFF < r ∨ (0xD800 ≤ r ∧ r ≤ 0xDFFF) then [toByte 0xEF, toByte 0xBF, toByte 0xBD]
  else if r ≤ 0xFFFF then
    [toByte (0xE0 + r / 4096), toByte (0x80 + r / 64 % 64), toByte (0x80 + r % 64)]
  else
    [toByte (0xF0 + r / 262144), toByte (0x80 + r / 4096 % 64), toByte (0x80 + r / 64 % 64),
      toByte (0x80 + r % 64)]

/-- Whether `b` lies in the inclusive range `lo..hi`. -/
def inRange (b : Byte) (lo hi : Nat) : Bool := decide (lo ≤ b.val) && decide (b.val ≤ hi)

/-- Entry of the `first`/`acceptRanges` tables of package `utf8` for a lead byte
`p0 ≥ 0x80`: the sequence length and the accepted range of the second byte, or
`none` for an invalid lead byte. -/
def leadInfo (p0 : Byte) : Option (Nat × Nat × Nat) :=
  if p0.val < 0xC2 then none
  else if p0.val ≤ 0xDF then some (2, 0x80, 0xBF)
  else if p0.val = 0xE0 then some (3, 0xA0, 0xBF)
  else if p0.val = 0xED then some (3, 0x80, 0x9F)
  else if p0.val ≤ 0xEF then some (3, 0x80, 0xBF)
  else if p0.val = 0xF0 then some (4, 0x90, 0xBF)
  else if p0.val ≤ 0xF3 then some (4, 0x80, 0xBF)
  else if p0.val = 0xF4 then some (4, 0x80, 0x8F)
  else none

/-- Model of `utf8.DecodeRune`: the first rune of `p` and its width in bytes.
Invalid or short encodings give `(RuneError, 1)`; empty input gives `(RuneError, 0)`. -/
def DecodeRune (p : GoString) : Nat × Nat :=
  match p with
  | [] => (RuneError, 0)
  | p0 :: rest =>
    if p0.val < 0x80 then (p0.val, 1)
    else
      match leadInfo p0 with
      | none => (RuneError, 1)
      | some (sz, lo, hi) =>
        if rest.length + 1 < sz then (RuneError, 1)
        else
          match rest with
          | [] => (RuneError, 1)
          | b1 :: rest1 =>
            if !inRange b1 lo hi then (RuneError, 1)
            else if sz ≤ 2 then (p0.val % 32 * 64 + b1.val % 64, 2)
            else
              match rest1 with
              | [] => (RuneError, 1)
              | b2 :: rest2 =>
                if !inRange b2 0x80 0xBF then (RuneError, 1)
                else if sz ≤ 3 then (p0.val % 16 * 4096 + b1.val % 64 * 64 + b2.val % 64, 3)
                else
                  match rest2 with
                  | [] => (RuneError, 1)
                  | b3 :: _ =>
                    if !inRange b3 0x80 0xBF then (RuneError, 1)
                    else
                      (p0.val % 8 * 262144 + b1.val % 64 * 4096 + b2.val % 64 * 64
                        + b3.val % 64, 4)

end utf8

/-- The UTF-8 bytes of a sequence of Unicode characters. -/
def utf8Bytes : List Char → GoString
  | [] => []
  | c :: cs => utf8.EncodeRune c.toNat ++ utf8Bytes cs

/-- A Go string literal: the UTF-8 bytes of its text. -/
def str (s : String) : GoString := utf8Bytes s.toList

/-! ## Package `strconv` -/

namespace strconv

/-- Decimal digits of `n`, most significant first, in front of `acc`; `fuel`
bounds the number of digits produced. -/
def digitsAux : Nat → Nat → GoString → GoString
  | 0, _, acc => acc
  | fuel + 1, n, acc =>
    if n < 10 then toByte (48 + n) :: acc
    else digitsAux fuel (n / 10) (toByte (48 + n % 10) :: acc)

/-- Decimal rendering of a natural number. -/
def formatNat (n : Nat) : GoString := digitsAux (n + 1) n []

/-- Model of `strconv.Itoa` (`FormatInt(int64(i), 10)`). -/
def Itoa (i : Int) : GoString :=
  if i < 0 then toByte 45 :: formatNat (-i).toNat else formatNat i.toNat

/-- Value of a run of decimal digits read left to right from `acc`; `none` if a
byte is not a digit. -/
def parseDigits : GoString → Nat → Option Nat
  | [], acc => some acc
  | c :: cs, acc =>
    if 48 ≤ c.val ∧ c.val ≤ 57 then parseDigits cs (acc * 10 + (c.val - 48)) else none

/-- Model of `strconv.ParseInt(s, 10, 64)`: `none` stands for any error
(syntax or range). -/
def ParseInt (s : GoString) : Option Int :=
  match s with
  | [] => none
  | c :: cs =>
    let neg := c.val = 45
    let body := if c.val = 45 ∨ c.val = 43 then cs else s
    match body with
    | [] => none
    | _ :: _ =>
      match parseDigits body 0 with
      | none => none
      | some un =>
        if neg then (if un ≤ 2 ^ 63 then some (-(un : Int)) else none)
        else (if un < 2 ^ 63 then some (un : Int) else none)

end strconv

/-! ## Package `runtime` and `GetCurrentFuncName` -/

/-- A runtime fault (Go panic). -/
inductive Panic where
  | nilDereference
  deriving DecidableEq, Repr

/-- A function record of the running binary (`runtime.Func`). -/
structure Func where
  name : GoString
  deriving DecidableEq, Repr

/-- One frame of the active call chain. -/
structure Frame where
  pc : Nat
  file : GoString
  line : Int
  deriving DecidableEq, Repr

/-- What package `runtime` sees while `GetCurrentFuncName` runs: the active call
chain (index 0 is `GetCurrentFuncName` itself, index 1 its caller, ...) and the
symbol table mapping program counters to function records. -/
structure Runtime where
  callers : List Frame
  funcs : Nat → Option Func

/-- Model of `runtime.Caller(skip)`: `(pc, file, line, ok)`; all zero when the
frame cannot be recovered. -/
def Runtime.Caller (rt : Runtime) (skip : Nat) : Nat × GoString × Int × Bool :=
  match rt.callers.get? skip with
  | some f => (f.pc, f.file, f.line, true)
  | none => (0, [], 0, false)

/-- Model of `runtime.FuncForPC(pc)`: the function record or nil. -/
def Runtime.FuncForPC (rt : Runtime) (pc : Nat) : Option Func := rt.funcs pc

/-- Model of `(*runtime.Func).Name`. The method is declared on the pointer type
and starts with `if f == nil { return "" }` (runtime/symtab.go), so a call on
the nil `*Func` that `FuncForPC` returns for an unknown program counter yields
the empty string; otherwise it yields the function name. It never faults. -/
def Func.Name : Option Func → Except Panic GoString
  | none => .ok []
  | some f => .ok f.name

/-- Embedding of `GetCurrentFuncName` (common.go, lines 101-104). -/
def GetCurrentFuncName (rt : Runtime) : Except Panic GoString :=
  match rt.Caller 1 with
  | (pc, _, line, _) =>
    match Func.Name (rt.FuncForPC pc) with
    | .error p => .error p
    | .ok name => .ok (name ++ str " line:" ++ strconv.Itoa line ++ str " ")

/-! ## Errors -/

deriving instance DecidableEq for Except

/-- A non-nil Go `error` value, as far as this program can tell errors apart. -/
inductive GoError where
  /-- A value implementing `awserr.Error`, with its `Code()` and `Error()` strings. -/
  | aws (code : GoString) (text : GoString)
  /-- Any other error value, with its `Error()` string. -/
  | plain (text : GoString)
  /-- The value `base64.CorruptInputError(offset)`. -/
  | corruptInput (offset : Nat)
  deriving DecidableEq, Repr

/-- The `Error()` method. -/
def GoError.Error : GoError → GoString
  | .aws _ text => text
  | .plain text => text
  | .corruptInput offset => str "illegal base64 data at input byte " ++ strconv.Itoa offset

/-! ## Package `encoding/base64`: `StdEncoding` -/

namespace base64

/-- Entry `decodeMap[c]` of `StdEncoding`: the six-bit value of an alphabet byte
(`A-Z`, `a-z`, `0-9`, `+`, `/`), `none` for the table entry `0xff`. -/
def decodeMap (c : Byte) : Option Nat :=
  if 65 ≤ c.val ∧ c.val ≤ 90 then some (c.val - 65)
  else if 97 ≤ c.val ∧ c.val ≤ 122 then some (c.val - 97 + 26)
  else if 48 ≤ c.val ∧ c.val ≤ 57 then some (c.val - 48 + 52)
  else if c.val = 43 then some 62
  else if c.val = 47 then some 63
  else none

/-- The loop `for si < len(src) && (src[si] == '\n' || src[si] == '\r') { si++ }`. -/
def skipNewlines : GoString → Nat → GoString × Nat
  | [], si => ([], si)
  | c :: cs, si => if c.val = 10 ∨ c.val = 13 then skipNewlines cs (si + 1) else (c :: cs, si)

/-- The bytes a quantum of `dlen` six-bit values contributes: `dlen - 1` bytes of
`val = dbuf[0]<<18 | dbuf[1]<<12 | dbuf[2]<<6 | dbuf[3]`. -/
def quantumBytes (dbuf : List Nat) : GoString :=
  let val := dbuf.getD 0 0 * 262144 + dbuf.getD 1 0 * 4096 + dbuf.getD 2 0 * 64 + dbuf.getD 3 0
  ([toByte (val / 65536), toByte (val / 256), toByte val]).take (dbuf.length - 1)

/-- After the padding of a quantum has been consumed: newlines are skipped and
anything left is trailing garbage. -/
def finishPadded (dbuf : List Nat) (src : GoString) (si : Nat) : Except GoError GoString :=
  match skipNewlines src si with
  | ([], _) => .ok (quantumBytes dbuf)
  | (_ :: _, si1) => .error (.corruptInput si1)

/-- The decoding loop of `Encoding.Decode` with `decodeQuantum` unrolled into it:
`src` is the input from index `si` on, `dbuf` the six-bit values of the current
quantum read so far (`j = dbuf.length`). -/
def decodeLoop : GoString → Nat → List Nat → Except GoError GoString
  | [], si, dbuf =>
    if dbuf.length = 0 then .ok [] else .error (.corruptInput (si - dbuf.length))
  | c :: cs, si, dbuf =>
    match decodeMap c with
    | some out =>
      if dbuf.length = 3 then
        match decodeLoop cs (si + 1) [] with
        | .ok tail => .ok (quantumBytes (dbuf ++ [out]) ++ tail)
        | .error e => .error e
      else decodeLoop cs (si + 1) (dbuf ++ [out])
    | none =>
      if c.val = 10 ∨ c.val = 13 then decodeLoop cs (si + 1) dbuf
      else if c.val ≠ 61 then .error (.corruptInput si)
      else if dbuf.length ≤ 1 then .error (.corruptInput si)
      else if dbuf.length = 2 then
        match skipNewlines cs (si + 1) with
        | ([], si1) => .error (.corruptInput si1)
        | (c1 :: cs1, si1) =>
          if c1.val ≠ 61 then .error (.corruptInput (si1 - 1))
          else finishPadded dbuf cs1 (si1 + 1)
      else finishPadded dbuf cs (si + 1)

/-- Model of `base64.StdEncoding.Decode(dst, src)` with `dst` of length
`DecodedLen(len(src))`: the decoded bytes `dst[:n]`, or the error. -/
def Decode (src : GoString) : Except GoError GoString := decodeLoop src 0 []

/-- Entry `encode[i]` of the standard alphabet. -/
def encodeChar (i : Nat) : Byte :=
  if i < 26 then toByte (65 + i)
  else if i < 52 then toByte (97 + (i - 26))
  else if i < 62 then toByte (48 + (i - 52))
  else if i = 62 then toByte 43
  else toByte 47

/-- The standard base64 encoding with padding (`StdEncoding.EncodeToString`, RFC 4648). -/
def Encode : GoString → GoString
  | [] => []
  | [a] => [encodeChar (a.val / 4), encodeChar (a.val % 4 * 16), toByte 61, toByte 61]
  | [a, b] =>
    [encodeChar (a.val / 4), encodeChar (a.val % 4 * 16 + b.val / 16),
      encodeChar (b.val % 16 * 4), toByte 61]
  | a :: b :: c :: rest =>
    encodeChar (a.val / 4) :: encodeChar (a.val % 4 * 16 + b.val / 16)
      :: encodeChar (b.val % 16 * 4 + c.val / 64) :: encodeChar (c.val % 64) :: Encode rest

end base64

/-! ## The record -/

/-- The struct `SecretDetails` (common.go, lines 91-98). `Port` is a Go `int`
(64 bits): every value stored in it lies in `[-2^63, 2^63)`. -/
structure SecretDetails where
  Dbname : GoString
  Port : Int
  User : GoString
  Password : GoString
  Host : GoString
  DbSslMode : GoString
  deriving DecidableEq, Repr

/-- The zero value of `SecretDetails` (`var secretDetails SecretDetails`). -/
def SecretDetails.zero : SecretDetails := ⟨[], 0, [], [], [], []⟩

/-! ## Package `encoding/json`, as used on `*SecretDetails` -/

namespace json

/-- A parsed JSON value. Numbers keep their literal text, strings are unquoted. -/
inductive Value where
  | null
  | bool (b : Bool)
  | number (lit : GoString)
  | string (s : GoString)
  | array (items : List Value)
  | object (members : List (GoString × Value))

/-- The error values `Unmarshal` can return here. -/
inductive JsonError where
  /-- A `*json.SyntaxError`: the input is not a JSON text. -/
  | SyntaxError
  /-- A `*json.UnmarshalTypeError` with its `Value` description. -/
  | UnmarshalTypeError (value : GoString)
  deriving DecidableEq, Repr

/-- The scanner predicate `isSpace`: space, tab, carriage return, line feed. -/
def isSpace (c : Byte) : Bool := c.val = 32 || c.val = 9 || c.val = 13 || c.val = 10

/-- Drop leading JSON whitespace. -/
def skipSpace : GoString → GoString
  | [] => []
  | c :: cs => if isSpace c then skipSpace cs else c :: cs

/-- Hexadecimal digit value of a byte (`0-9`, `a-f`, `A-F`). -/
def hexVal (c : Byte) : Option Nat :=
  if 48 ≤ c.val ∧ c.val ≤ 57 then some (c.val - 48)
  else if 97 ≤ c.val ∧ c.val ≤ 102 then some (c.val - 97 + 10)
  else if 65 ≤ c.val ∧ c.val ≤ 70 then some (c.val - 65 + 10)
  else none

/-- Whether `e` may follow a backslash as a one-byte escape: `b f n r t \ / "`. -/
def isSimpleEscape (e : Byte) : Bool :=
  e.val = 98 || e.val = 102 || e.val = 110 || e.val = 114 || e.val = 116 || e.val = 92
    || e.val = 47 || e.val = 34

/-- The scanner states inside a string literal (`stateInString`,
`stateInStringEsc`, `stateInStringEscU`, `stateInStringEscU1`, ...). -/
inductive StringState where
  | inString
  | inStringEsc
  | inStringEscU
  | inStringEscU1
  | inStringEscU12
  | inStringEscU123
  deriving DecidableEq, Repr

/-- Put a scanned byte in front of the raw text of a scan result. -/
def keep (c : Byte) : Option (GoString × GoString) → Option (GoString × GoString)
  | some (raw, rest) => some (c :: raw, rest)
  | none => none

/-- The scanner inside a string literal, one byte per step, from a given
state: the raw text up to the closing quote (excluded) and the input after it.
`none` is a syntax error (a control character, a bad escape, or no closing
quote). -/
def scanStringFrom : StringState → GoString → Option (GoString × GoString)
  | _, [] => none
  | StringState.inString, c :: cs =>
    if c.val = 34 then some ([], cs)
    else if c.val = 92 then keep c (scanStringFrom StringState.inStringEsc cs)
    else if c.val < 32 then none
    else keep c (scanStringFrom StringState.inString cs)
  | StringState.inStringEsc, c :: cs =>
    if isSimpleEscape c then keep c (scanStringFrom StringState.inString cs)
    else if c.val = 117 then keep c (scanStringFrom StringState.inStringEscU cs)
    else none
  | StringState.inStringEscU, c :: cs =>
    if (hexVal c).isSome then keep c (scanStringFrom StringState.inStringEscU1 cs) else none
  | StringState.inStringEscU1, c :: cs =>
    if (hexVal c).isSome then keep c (scanStringFrom StringState.inStringEscU12 cs) else none
  | StringState.inStringEscU12, c :: cs =>
    if (hexVal c).isSome then keep c (scanStringFrom StringState.inStringEscU123 cs) else none
  | StringState.inStringEscU123, c :: cs =>
    if (hexVal c).isSome then keep c (scanStringFrom StringState.inString cs) else none

/-- A string literal whose opening quote has just been read: the raw body of
the literal (quotes excluded) and the input after the closing quote. -/
def scanString (s : GoString) : Option (GoString × GoString) :=
  scanStringFrom StringState.inString s

/-- Model of `getu4`: the value of a leading `\uXXXX`, `none` for Go's `-1`. -/
def getu4 : GoString → Option Nat
  | b :: u :: h1 :: h2 :: h3 :: h4 :: _ =>
    if b.val = 92 ∧ u.val = 117 then
      match hexVal h1, hexVal h2, hexVal h3, hexVal h4 with
      | some a, some b, some c, some d => some (a * 4096 + b * 256 + c * 16 + d)
      | _, _, _, _ => none
    else none
  | _ => none

/-- Model of `utf16.DecodeRune(r1, r2)` with `r2 = getu4 ...`: the code point of a
surrogate pair, or `unicode.ReplacementChar`. -/
def utf16DecodeRune (r1 : Nat) (r2 : Option Nat) : Nat :=
  match r2 with
  | some r2 =>
    if 0xD800 ≤ r1 ∧ r1 < 0xDC00 ∧ 0xDC00 ≤ r2 ∧ r2 < 0xE000 then
      (r1 - 0xD800) * 1024 + (r2 - 0xDC00) + 0x10000
    else utf8.RuneError
  | none => utf8.RuneError

/-- The byte a one-byte escape stands for. -/
def escapeByte (e : Byte) : Option Byte :=
  if e.val = 34 ∨ e.val = 92 ∨ e.val = 47 ∨ e.val = 39 then some e
  else if e.val = 98 then some (toByte 8)
  else if e.val = 102 then some (toByte 12)
  else if e.val = 110 then some (toByte 10)
  else if e.val = 114 then some (toByte 13)
  else if e.val = 116 then some (toByte 9)
  else none

/-- One iteration of the loop of `unquoteBytes` at the head of `s`: the bytes
it writes and the number of input bytes it consumes. An escape is resolved
(a `\\u` escape that is half of a valid surrogate pair together with the other
half), an ASCII byte is copied, and anything else is coerced to well-formed
UTF-8 (`DecodeRune` followed by `EncodeRune`). `none` is Go's `ok = false`. -/
def unquoteStep (s : GoString) : Option (GoString × Nat) :=
  match s with
  | [] => none
  | c :: cs =>
    if c.val = 92 then
      match cs with
      | [] => none
      | e :: _ =>
        if e.val = 117 then
          match getu4 s with
          | none => none
          | some rr =>
            if 0xD800 ≤ rr ∧ rr < 0xE000 then
              if utf16DecodeRune rr (getu4 (s.drop 6)) ≠ utf8.RuneError then
                some (utf8.EncodeRune (utf16DecodeRune rr (getu4 (s.drop 6))), 12)
              else some (utf8.EncodeRune utf8.RuneError, 6)
            else some (utf8.EncodeRune rr, 6)
        else
          match escapeByte e with
          | some b => some ([b], 2)
          | none => none
    else if c.val = 34 ∨ c.val < 32 then none
    else if c.val < 0x80 then some ([c], 1)
    else some (utf8.EncodeRune (utf8.DecodeRune s).1, (utf8.DecodeRune s).2)

/-- The loop of `unquoteBytes`: `skip` input bytes belong to the iteration
before and are passed over, then the next iteration starts. -/
def unquoteFrom : Nat → GoString → Option GoString
  | 0, [] => some []
  | _ + 1, [] => none
  | skip + 1, _ :: cs => unquoteFrom skip cs
  | 0, c :: cs =>
    match unquoteStep (c :: cs) with
    | none => none
    | some (out, n) =>
      match unquoteFrom (n - 1) cs with
      | some t => some (out ++ t)
      | none => none

/-- Model of `unquoteBytes` on the body of a string literal. -/
def unquote (s : GoString) : Option GoString := unquoteFrom 0 s

/-- Whether `c` is a decimal digit. -/
def isDigit (c : Byte) : Bool := decide (48 ≤ c.val) && decide (c.val ≤ 57)

/-- The longest run of decimal digits at the head of the input, and what follows. -/
def takeDigits : GoString → GoString × GoString
  | [] => ([], [])
  | c :: cs =>
    if isDigit c then ((takeDigits cs).1.cons c, (takeDigits cs).2) else ([], c :: cs)

/-- Scanner states `state1`, `state0`: the integer part of a number (after the sign). -/
def scanIntPart : GoString → Option (GoString × GoString)
  | [] => none
  | c :: cs =>
    if c.val = 48 then some ([c], cs)
    else if isDigit c then some (c :: (takeDigits cs).1, (takeDigits cs).2)
    else none

/-- Scanner states `stateDot`, `stateDot0`: an optional fraction. -/
def scanFrac : GoString → Option (GoString × GoString)
  | [] => some ([], [])
  | c :: cs =>
    if c.val = 46 then
      (if (takeDigits cs).1 = [] then none else some (c :: (takeDigits cs).1, (takeDigits cs).2))
    else some ([], c :: cs)

/-- Scanner states `stateE`, `stateESign`, `stateE0`: an optional exponent. -/
def scanExp : GoString → Option (GoString × GoString)
  | [] => some ([], [])
  | c :: cs =>
    if c.val = 101 ∨ c.val = 69 then
      match cs with
      | [] => none
      | sgn :: cs1 =>
        if sgn.val = 43 ∨ sgn.val = 45 then
          (if (takeDigits cs1).1 = [] then none
           else some (c :: sgn :: (takeDigits cs1).1, (takeDigits cs1).2))
        else
          (if (takeDigits cs).1 = [] then none
           else some (c :: (takeDigits cs).1, (takeDigits cs).2))
    else some ([], c :: cs)

/-- A number literal at the head of the input: its text and what follows. -/
def scanNumber (s : GoString) : Option (GoString × GoString) :=
  let signed : GoString × GoString :=
    match s with
    | [] => ([], [])
    | c :: cs => if c.val = 45 then ([c], cs) else ([], c :: cs)
  match scanIntPart signed.2 with
  | none => none
  | some (ip, r1) =>
    match scanFrac r1 with
    | none => none
    | some (fp, r2) =>
      match scanExp r2 with
      | none => none
      | some (ep, r3) => some (signed.1 ++ ip ++ fp ++ ep, r3)

/-- Remove the literal `lit` from the head of the input. -/
def dropLit : GoString → GoString → Option GoString
  | [], s => some s
  | _ :: _, [] => none
  | l :: ls, c :: cs => if l = c then dropLit ls cs else none

/-- The scanner constant `maxNestingDepth`. -/
def maxNestingDepth : Nat := 10000

mutual

/-- One JSON value at the head of the input (no leading whitespace), inside
`depth` enclosing arrays and objects. `none` is a syntax error. The first
argument bounds the recursion; the length of the input plus one is enough. -/
def parseValue : Nat → Nat → GoString → Option (Value × GoString)
  | 0, _, _ => none
  | fuel + 1, depth, s =>
    match s with
    | [] => none
    | c :: cs =>
      if c.val = 123 then
        if maxNestingDepth ≤ depth then none
        else
          match skipSpace cs with
          | [] => none
          | c1 :: cs1 =>
            if c1.val = 125 then some (Value.object [], cs1)
            else
              match parseMembers fuel (depth + 1) (c1 :: cs1) with
              | some (ms, rest) => some (Value.object ms, rest)
              | none => none
      else if c.val = 91 then
        if maxNestingDepth ≤ depth then none
        else
          match skipSpace cs with
          | [] => none
          | c1 :: cs1 =>
            if c1.val = 93 then some (Value.array [], cs1)
            else
              match parseElements fuel (depth + 1) (c1 :: cs1) with
              | some (vs, rest) => some (Value.array vs, rest)
              | none => none
      else if c.val = 34 then
        match scanString cs with
        | none => none
        | some (raw, rest) =>
          match unquote raw with
          | some t => some (Value.string t, rest)
          | none => none
      else if c.val = 45 ∨ isDigit c then
        match scanNumber (c :: cs) with
        | some (lit, rest) => some (Value.number lit, rest)
        | none => none
      else if c.val = 116 then (dropLit (str "rue") cs).map (fun r => (Value.bool true, r))
      else if c.val = 102 then (dropLit (str "alse") cs).map (fun r => (Value.bool false, r))
      else if c.val = 110 then (dropLit (str "ull") cs).map (fun r => (Value.null, r))
      else none

/-- The members of an object, the input standing at the opening quote of a key,
up to and including the closing brace. -/
def parseMembers : Nat → Nat → GoString → Option (List (GoString × Value) × GoString)
  | 0, _, _ => none
  | fuel + 1, depth, s =>
    match s with
    | [] => none
    | q :: cs =>
      if q.val ≠ 34 then none
      else
        match scanString cs with
        | none => none
        | some (raw, r1) =>
          match unquote raw with
          | none => none
          | some key =>
            match skipSpace r1 with
            | [] => none
            | colon :: r2 =>
              if colon.val ≠ 58 then none
              else
                match parseValue fuel depth (skipSpace r2) with
                | none => none
                | some (v, r3) =>
                  match skipSpace r3 with
                  | [] => none
                  | sep :: r4 =>
                    if sep.val = 125 then some ([(key, v)], r4)
                    else if sep.val = 44 then
                      match parseMembers fuel depth (skipSpace r4) with
                      | some (ms, r5) => some ((key, v) :: ms, r5)
                      | none => none
                    else none

/-- The elements of an array, the input standing at the first byte of an
element, up to and including the closing bracket. -/
def parseElements : Nat → Nat → GoString → Option (List Value × GoString)
  | 0, _, _ => none
  | fuel + 1, depth, s =>
    match parseValue fuel depth s with
    | none => none
    | some (v, r1) =>
      match skipSpace r1 with
      | [] => none
      | sep :: r2 =>
        if sep.val = 93 then some ([v], r2)
        else if sep.val = 44 then
          match parseElements fuel depth (skipSpace r2) with
          | some (vs, r3) => some (v :: vs, r3)
          | none => none
        else none

end

/-- Model of `checkValid` plus the scan the decoder repeats: the value a JSON
text denotes, `none` when the text is not valid JSON (a `SyntaxError`). -/
def parse (data : GoString) : Option Value :=
  match parseValue (data.length + 1) 0 (skipSpace data) with
  | none => none
  | some (v, rest) => if skipSpace rest = [] then some v else none

/-- The exported fields of `SecretDetails`. -/
inductive Field where
  | Dbname | Port | User | Password | Host | DbSslMode
  deriving DecidableEq, Repr

/-- The JSON names given by the struct tags, in declaration order. -/
def fieldNames : List (GoString × Field) :=
  [(str "dbname", Field.Dbname), (str "port", Field.Port), (str "username", Field.User),
    (str "password", Field.Password), (str "host", Field.Host),
    (str "dbsslmode", Field.DbSslMode)]

/-- Upper-case an ASCII letter. -/
def foldByte (c : Byte) : Byte := if 97 ≤ c.val ∧ c.val ≤ 122 then toByte (c.val - 32) else c

/-- Model of `foldName`, the key of the case-insensitive field index: ASCII
letters are upper-cased, and the two non-ASCII runes whose simple case folding
reaches an ASCII letter, U+017F and U+212A, become `S` and `K`. Every other
rune is left as it is: its folded form is not ASCII, so it cannot take part in
a match with one of the (ASCII) names of `fieldNames`. -/
def foldName : GoString → GoString
  | [] => []
  | c :: cs =>
    match cs with
    | [] => [foldByte c]
    | c1 :: cs1 =>
      if c.val = 0xC5 ∧ c1.val = 0xBF then toByte 83 :: foldName cs1
      else
        match cs1 with
        | [] => foldByte c :: foldName [c1]
        | c2 :: cs2 =>
          if c.val = 0xE2 ∧ c1.val = 0x84 ∧ c2.val = 0xAA then toByte 75 :: foldName cs2
          else foldByte c :: foldName (c1 :: c2 :: cs2)

/-- First entry of a table whose name satisfies `p`. -/
def lookupField (p : GoString → Bool) : List (GoString × Field) → Option Field
  | [] => none
  | (name, f) :: rest => if p name then some f else lookupField p rest

/-- The field a JSON object key selects: an exact match of the name if there is
one, otherwise a match under case folding. -/
def findField (key : GoString) : Option Field :=
  match lookupField (fun name => name = key) fieldNames with
  | some f => some f
  | none => lookupField (fun name => foldName name = foldName key) fieldNames

/-- The decoder method `literalStore`/`object`/`array` on a field of kind `string`:
a JSON string is stored, `null` leaves the field alone, anything else is a
type error and leaves the field alone. -/
def storeString (cur : GoString) : Value → GoString × Option JsonError
  | Value.string t => (t, none)
  | Value.null => (cur, none)
  | Value.bool _ => (cur, some (JsonError.UnmarshalTypeError (str "bool")))
  | Value.number _ => (cur, some (JsonError.UnmarshalTypeError (str "number")))
  | Value.array _ => (cur, some (JsonError.UnmarshalTypeError (str "array")))
  | Value.object _ => (cur, some (JsonError.UnmarshalTypeError (str "object")))

/-- The same on a field of kind `int`: a number literal that `strconv.ParseInt`
accepts is stored; one it rejects (a fraction, an exponent, a value outside 64
bits) is a type error. -/
def storeInt (cur : Int) : Value → Int × Option JsonError
  | Value.number lit =>
    match strconv.ParseInt lit with
    | some n => (n, none)
    | none => (cur, some (JsonError.UnmarshalTypeError (str "number " ++ lit)))
  | Value.null => (cur, none)
  | Value.bool _ => (cur, some (JsonError.UnmarshalTypeError (str "bool")))
  | Value.string _ => (cur, some (JsonError.UnmarshalTypeError (str "string")))
  | Value.array _ => (cur, some (JsonError.UnmarshalTypeError (str "array")))
  | Value.object _ => (cur, some (JsonError.UnmarshalTypeError (str "object")))

/-- Decode one value into the selected field. -/
def setField (d : SecretDetails) (f : Field) (v : Value) : SecretDetails × Option JsonError :=
  match f with
  | Field.Dbname => ({ d with Dbname := (storeString d.Dbname v).1 }, (storeString d.Dbname v).2)
  | Field.Port => ({ d with Port := (storeInt d.Port v).1 }, (storeInt d.Port v).2)
  | Field.User => ({ d with User := (storeString d.User v).1 }, (storeString d.User v).2)
  | Field.Password =>
    ({ d with Password := (storeString d.Password v).1 }, (storeString d.Password v).2)
  | Field.Host => ({ d with Host := (storeString d.Host v).1 }, (storeString d.Host v).2)
  | Field.DbSslMode =>
    ({ d with DbSslMode := (storeString d.DbSslMode v).1 }, (storeString d.DbSslMode v).2)

/-- The decoder method `saveError`: only the first error is kept. -/
def saveError (saved new : Option JsonError) : Option JsonError :=
  match saved with
  | some e => some e
  | none => new

/-- The decoder method `object` on the struct: the members are decoded in input
order, members with an unknown key are skipped, and decoding goes on after a
type error. -/
def storeMembers : List (GoString × Value) → SecretDetails → Option JsonError →
    SecretDetails × Option JsonError
  | [], d, saved => (d, saved)
  | (key, v) :: ms, d, saved =>
    match findField key with
    | none => storeMembers ms d saved
    | some f => storeMembers ms (setField d f v).1 (saveError saved (setField d f v).2)

/-- The decoder method `value` on the struct itself. -/
def store (d : SecretDetails) : Value → SecretDetails × Option JsonError
  | Value.object ms => storeMembers ms d none
  | Value.null => (d, none)
  | Value.bool _ => (d, some (JsonError.UnmarshalTypeError (str "bool")))
  | Value.number _ => (d, some (JsonError.UnmarshalTypeError (str "number")))
  | Value.string _ => (d, some (JsonError.UnmarshalTypeError (str "string")))
  | Value.array _ => (d, some (JsonError.UnmarshalTypeError (str "array")))

/-- Model of `json.Unmarshal(data, &v)` for `v : SecretDetails`: the struct
afterwards and the returned error. The input is checked for well-formedness
first, so a syntax error leaves `v` untouched; a type error does not stop the
decoding of the other members. -/
def Unmarshal (data : GoString) (v : SecretDetails) : SecretDetails × Option JsonError :=
  match parse data with
  | none => (v, some JsonError.SyntaxError)
  | some j => store v j

end json

/-! ## The AWS SDK, as far as `GetSecret` touches it -/

namespace aws

/-- The part of `aws.Config` that is set: `Region *string`. -/
structure Config where
  Region : Option GoString
  deriving DecidableEq, Repr

end aws

namespace session

/-- A `*session.Session`: an opaque handle plus the configuration it carries. -/
structure Session where
  handle : Nat
  Config : aws.Config
  deriving DecidableEq, Repr

end session

namespace secretsmanager

/-- A `*secretsmanager.SecretsManager` client, bound to the session it was made from. -/
structure SecretsManager where
  sess : session.Session
  deriving DecidableEq, Repr

/-- Model of `secretsmanager.New(sess)`. -/
def New (sess : session.Session) : SecretsManager := ⟨sess⟩

/-- The struct `GetSecretValueInput`; an unset `*string` is `none`. -/
structure GetSecretValueInput where
  SecretId : Option GoString
  VersionId : Option GoString
  VersionStage : Option GoString
  deriving DecidableEq, Repr

/-- The fields of `GetSecretValueOutput` that are read; a nil `SecretString` is
`none`, a nil `SecretBinary` is the empty slice. -/
structure GetSecretValueOutput where
  SecretString : Option GoString
  SecretBinary : GoString
  deriving DecidableEq, Repr

def ErrCodeDecryptionFailure : GoString := str "DecryptionFailure"
def ErrCodeInternalServiceError : GoString := str "InternalServiceError"
def ErrCodeInvalidParameterException : GoString := str "InvalidParameterException"
def ErrCodeInvalidRequestException : GoString := str "InvalidRequestException"
def ErrCodeResourceNotFoundException : GoString := str "ResourceNotFoundException"

end secretsmanager

/-! ## `GetSecret` -/

/-- Everything outside the function, as a state machine. `σ` is the state of
what lies behind the SDK (its clients, the network, the remote store); the
session constructor and the remote operation act on it and hand it on. The
process environment is only read. -/
structure System (σ : Type) where
  environ : GoString → Option GoString
  NewSession : aws.Config → σ → Except GoError session.Session × σ
  GetSecretValue : secretsmanager.SecretsManager → secretsmanager.GetSecretValueInput → σ →
    Except GoError secretsmanager.GetSecretValueOutput × σ

/-- Model of `os.Getenv`: the value of the variable, empty if it is not set. -/
def System.Getenv {σ : Type} (sys : System σ) (key : GoString) : GoString :=
  match sys.environ key with
  | some v => v
  | none => []

/-- What a call of `GetSecret` leaves: its two results, the lines it handed to
`log.Println` (operands rendered as strings), and the state of the outside
world after the call. -/
structure Run (σ : Type) where
  details : SecretDetails
  err : Option GoError
  logs : List (List GoString)
  state : σ

/-- The log lines of the error classification (common.go, lines 40-66). -/
def classifyLog (err : GoError) : List (List GoString) :=
  match err with
  | GoError.aws code text =>
    if code = secretsmanager.ErrCodeDecryptionFailure then
      [[secretsmanager.ErrCodeDecryptionFailure, text]]
    else if code = secretsmanager.ErrCodeInternalServiceError then
      [[secretsmanager.ErrCodeInternalServiceError, text]]
    else if code = secretsmanager.ErrCodeInvalidParameterException then
      [[secretsmanager.ErrCodeInvalidParameterException, text]]
    else if code = secretsmanager.ErrCodeInvalidRequestException then
      [[secretsmanager.ErrCodeInvalidRequestException, text]]
    else if code = secretsmanager.ErrCodeResourceNotFoundException then
      [[secretsmanager.ErrCodeResourceNotFoundException, text]]
    else []
  | e => [[e.Error]]

namespace common

/-- Embedding of `GetSecret` (common.go, lines 18-89) in state-passing style:
every call on the outside world takes the state the call before it left. -/
def GetSecret {σ : Type} (sys : System σ) (secEnvVarName : GoString) (s0 : σ) : Run σ :=
  let secretDetails : SecretDetails := SecretDetails.zero
  let secretName := sys.Getenv secEnvVarName
  let region := sys.Getenv (str "region")
  match sys.NewSession { Region := some region } s0 with
  | (.error err, s1) => ⟨secretDetails, some err, [], s1⟩
  | (.ok sess, s1) =>
    let svc := secretsmanager.New sess
    let input : secretsmanager.GetSecretValueInput :=
      { SecretId := some secretName, VersionId := none, VersionStage := some (str "AWSCURRENT") }
    match sys.GetSecretValue svc input s1 with
    | (.error err, s2) => ⟨secretDetails, some err, classifyLog err, s2⟩
    | (.ok result, s2) =>
      match result.SecretString with
      | some secretString => ⟨(json.Unmarshal secretString secretDetails).1, none, [], s2⟩
      | none =>
        match base64.Decode result.SecretBinary with
        | .error err =>
          ⟨secretDetails, some err, [[str "Base64 Decode Error:", err.Error]], s2⟩
        | .ok decodedBinarySecret =>
          ⟨(json.Unmarshal decodedBinarySecret secretDetails).1, none, [], s2⟩

end common

/-- An externally visible action of `GetSecret`. -/
inductive Event where
  /-- A call `session.NewSession(cfg)`. -/
  | NewSession (cfg : aws.Config)
  /-- A call `svc.GetSecretValue(input)`. -/
  | GetSecretValue (svc : secretsmanager.SecretsManager)
      (input : secretsmanager.GetSecretValueInput)
  /-- A call `log.Println(args...)`, with its operands rendered as strings. -/
  | Println (args : List GoString)
  deriving DecidableEq, Repr

/-- An outside world whose operations are pure functions of their arguments:
the process environment, the session constructor and the remote operation. -/
structure World where
  environ : GoString → Option GoString
  NewSession : aws.Config → Except GoError session.Session
  GetSecretValue : secretsmanager.SecretsManager → secretsmanager.GetSecretValueInput →
    Except GoError secretsmanager.GetSecretValueOutput

/-- Model of `os.Getenv`: the value of the variable, empty if it is not set. -/
def World.Getenv (w : World) (key : GoString) : GoString :=
  match w.environ key with
  | some v => v
  | none => []

/-- The world `w` as a system whose state is the list of the calls made on it
so far: each operation answers as `w` does and appends its own call. -/
def World.recording (w : World) : System (List Event) :=
  { environ := w.environ
    NewSession := fun cfg calls => (w.NewSession cfg, calls ++ [Event.NewSession cfg])
    GetSecretValue := fun svc input calls =>
      (w.GetSecretValue svc input, calls ++ [Event.GetSecretValue svc input]) }

/-- The two results of `GetSecret` and the events of the call, in order. -/
structure Outcome where
  details : SecretDetails
  err : Option GoError
  trace : List Event
  deriving DecidableEq, Repr

/-- `common.GetSecret` run in the world `w`, recording: the trace is the list
of the calls the run made on the world, followed by its log lines (the code
logs only after its last call). -/
def GetSecret (w : World) (secEnvVarName : GoString) : Outcome :=
  { details := (common.GetSecret w.recording secEnvVarName []).details
    err := (common.GetSecret w.recording secEnvVarName []).err
    trace := (common.GetSecret w.recording secEnvVarName []).state
      ++ (common.GetSecret w.recording secEnvVarName []).logs.map Event.Println }

/-! ## The SDK between `GetSecret` and the network

What `svc.GetSecretValue` and `session.NewSession` of aws-sdk-go (v1) do with
default settings, as far as it decides how many HTTP requests leave the
process: the region is resolved, the input is validated before anything is
sent, and a failed request is sent again by the default retryer. -/

namespace sdk

/-- One HTTP request for the operation `GetSecretValue`, as the endpoint sees it. -/
structure RemoteRequest where
  region : GoString
  input : secretsmanager.GetSecretValueInput
  deriving DecidableEq, Repr

/-- The answer of the endpoint to one request: the output, or an error
together with the verdict of the default retryer on it (`true` for a status
from 500 on other than 501, for throttling and for timeouts). -/
inductive Reply where
  | success (out : secretsmanager.GetSecretValueOutput)
  | failure (err : GoError) (retryable : Bool)

/-- The remote endpoint: its answer to a request, given the requests it has
received before. -/
structure Endpoint where
  reply : List RemoteRequest → RemoteRequest → Reply

/-- The constant `client.DefaultRetryerMaxNumRetries`. -/
def DefaultRetryerMaxNumRetries : Nat := 3

/-- The value `aws.ErrMissingRegion`. -/
def ErrMissingRegion : GoError :=
  GoError.aws (str "MissingRegion") (str "MissingRegion: could not find region configuration")

/-- The messages of `GetSecretValueInput.Validate`: `SecretId` is required and
has at least one byte, `VersionId` at least 32, `VersionStage` at least one. -/
def validationMessages (input : secretsmanager.GetSecretValueInput) : List GoString :=
  (match input.SecretId with
    | none => [str "missing required field, GetSecretValueInput.SecretId."]
    | some v =>
      if v.length < 1 then [str "minimum field size of 1, GetSecretValueInput.SecretId."] else [])
  ++ (match input.VersionId with
    | none => []
    | some v =>
      if v.length < 32 then [str "minimum field size of 32, GetSecretValueInput.VersionId."]
      else [])
  ++ (match input.VersionStage with
    | none => []
    | some v =>
      if v.length < 1 then [str "minimum field size of 1, GetSecretValueInput.VersionStage."]
      else [])

/-- The lines `- message` of an `ErrInvalidParams`. -/
def messageLines : List GoString → GoString
  | [] => []
  | m :: ms => str "- " ++ m ++ str "\n" ++ messageLines ms

/-- The error of the parameter validation handler, if the input is invalid:
an `awserr.Error` with code `InvalidParameter`. -/
def validationError (input : secretsmanager.GetSecretValueInput) : Option GoError :=
  match validationMessages input with
  | [] => none
  | m :: ms =>
    some (GoError.aws (str "InvalidParameter")
      (str "InvalidParameter: " ++ strconv.Itoa ((m :: ms).length : Nat)
        ++ str " validation error(s) found.\n" ++ messageLines (m :: ms)))

/-- The send loop of a request: the request goes out, and goes out again
while the answer is a retryable failure and retries are left. The second
argument is the number of retries left, the third the requests sent so far. -/
def sendWithRetry (ep : Endpoint) (req : RemoteRequest) :
    Nat → List RemoteRequest →
      Except GoError secretsmanager.GetSecretValueOutput × List RemoteRequest
  | 0, sent =>
    match ep.reply sent req with
    | Reply.success out => (.ok out, sent ++ [req])
    | Reply.failure err _ => (.error err, sent ++ [req])
  | retries + 1, sent =>
    match ep.reply sent req with
    | Reply.success out => (.ok out, sent ++ [req])
    | Reply.failure err retryable =>
      if retryable then sendWithRetry ep req retries (sent ++ [req])
      else (.error err, sent ++ [req])

/-- The operation `svc.GetSecretValue(input)`: a client without a region and an
invalid input fail before anything is sent; otherwise the request is sent
with the default retryer. -/
def GetSecretValue (ep : Endpoint) (svc : secretsmanager.SecretsManager)
    (input : secretsmanager.GetSecretValueInput) (sent : List RemoteRequest) :
    Except GoError secretsmanager.GetSecretValueOutput × List RemoteRequest :=
  match svc.sess.Config.Region with
  | none => (.error ErrMissingRegion, sent)
  | some region =>
    if region = [] then (.error ErrMissingRegion, sent)
    else
      match validationError input with
      | some e => (.error e, sent)
      | none => sendWithRetry ep ⟨region, input⟩ DefaultRetryerMaxNumRetries sent

/-- The constructor `session.NewSession(cfg)`: nothing is sent; a region that
is not given in `cfg` is taken from the variable `AWS_REGION`. -/
def NewSession (environ : GoString → Option GoString) (cfg : aws.Config)
    (sent : List RemoteRequest) : Except GoError session.Session × List RemoteRequest :=
  match cfg.Region with
  | some (c :: cs) => (.ok ⟨0, { Region := some (c :: cs) }⟩, sent)
  | _ => (.ok ⟨0, { Region := environ (str "AWS_REGION") }⟩, sent)

/-- The outside world made of a process environment, the SDK and an endpoint;
its state is the list of the HTTP requests sent so far. -/
def system (environ : GoString → Option GoString) (ep : Endpoint) :
    System (List RemoteRequest) :=
  { environ := environ
    NewSession := NewSession environ
    GetSecretValue := GetSecretValue ep }

end sdk

/-! ## Reference renderings and sample inputs -/

/-- Whether an event is a call of `GetSecretValue`, the only way a remote
request is issued. -/
def Event.isRequest : Event → Bool
  | Event.GetSecretValue _ _ => true
  | _ => false

/-- Whether an event is a log line. -/
def Event.isLog : Event → Bool
  | Event.Println _ => true
  | _ => false

/-- Lower-case hexadecimal digit. -/
def hexDigit (n : Nat) : Byte := if n < 10 then toByte (48 + n) else toByte (87 + n)

/-- The bytes that stand for one character inside a JSON string literal: a
quotation mark and a backslash are escaped with a backslash, a control
character is written `\u00XX`, every other character is its UTF-8 encoding. -/
def jsonQuoteChar (c : Char) : GoString :=
  if c.toNat = 34 then [toByte 92, toByte 34]
  else if c.toNat = 92 then [toByte 92, toByte 92]
  else if c.toNat < 32 then
    [toByte 92, toByte 117, toByte 48, toByte 48, hexDigit (c.toNat / 16), hexDigit (c.toNat % 16)]
  else utf8.EncodeRune c.toNat

/-- The body of the JSON string literal for a text. -/
def jsonQuoteBody : List Char → GoString
  | [] => []
  | c :: cs => jsonQuoteChar c ++ jsonQuoteBody cs

/-- The JSON string literal for a text. -/
def jsonQuote (t : String) : GoString := toByte 34 :: (jsonQuoteBody t.toList ++ [toByte 34])

/-- The JSON object `{"dbname":d,"port":n,"username":u,"password":p,"host":h,"dbsslmode":s}`. -/
def secretJSON (d : String) (n : Int) (u p h s : String) : GoString :=
  str "\x7b\"dbname\":" ++ (jsonQuote d ++ (str ",\"port\":" ++ (strconv.Itoa n
    ++ (str ",\"username\":" ++ (jsonQuote u ++ (str ",\"password\":" ++ (jsonQuote p
    ++ (str ",\"host\":" ++ (jsonQuote h ++ (str ",\"dbsslmode\":" ++ (jsonQuote s
    ++ str "\x7d")))))))))))

/-- A sample environment: `region` and `DB_SECRET` are set. -/
def sampleEnviron (k : GoString) : Option GoString :=
  if k = str "region" then some (str "us-east-1")
  else if k = str "DB_SECRET" then some (str "prod/db")
  else none

/-- A sample world whose session constructor succeeds and whose remote
operation answers `reply`. -/
def sampleWorld (reply : Except GoError secretsmanager.GetSecretValueOutput) : World :=
  { environ := sampleEnviron
    NewSession := fun cfg => .ok ⟨1, cfg⟩
    GetSecretValue := fun _ _ => reply }

/-- A sample world whose session constructor fails with `e`. -/
def noSessionWorld (e : GoError) : World :=
  { environ := sampleEnviron
    NewSession := fun _ => .error e
    GetSecretValue := fun _ _ => .ok ⟨none, []⟩ }

/-- An endpoint that answers every request with an empty secret `{}`. -/
def sampleEndpoint : sdk.Endpoint :=
  { reply := fun _ _ => sdk.Reply.success ⟨some (str "\x7b\x7d"), []⟩ }

/-- An endpoint that answers every request with status 500, which the default
retryer retries. -/
def failingEndpoint : sdk.Endpoint :=
  { reply := fun _ _ =>
      sdk.Reply.failure
        (GoError.aws secretsmanager.ErrCodeInternalServiceError
          (str "InternalServiceError: status code: 500")) true }

/-- The session `sampleWorld` builds. -/
def sampleSession : session.Session := ⟨1, { Region := some (str "us-east-1") }⟩

/-- A sample remote error carrying one of the classified codes. -/
def sampleAwsError : GoError :=
  GoError.aws secretsmanager.ErrCodeResourceNotFoundException (str "ResourceNotFoundException: no such secret")

/-- A call chain whose caller frame is `main.run` at line 42. -/
def sampleRuntime : Runtime :=
  { callers := [⟨4096, str "common.go", 102⟩, ⟨8192, str "main.go", 42⟩]
    funcs := fun pc => if pc = 8192 then some ⟨str "main.run"⟩ else none }

/-- The same call chain with a symbol table that has no record for the caller. -/
def strippedRuntime : Runtime :=
  { callers := [⟨4096, str "common.go", 102⟩, ⟨8192, str "main.go", 42⟩]
    funcs := fun _ => none }

/-! ## `GetCurrentFuncName` -/

/-- C9: when the frame one level up the call chain has program counter `pc` and
line `n`, and `pc` resolves to a function named `f`, `GetCurrentFuncName`
returns `f ++ " line:" ++ Itoa n ++ " "`; so `f` is a leading part of the
result and the decimal rendering of `n` occurs in it. -/
theorem GetCurrentFuncName_format (rt : Runtime) (fr : Frame) (fn : Func)
    (hc : rt.callers.get? 1 = some fr) (hf : rt.funcs fr.pc = some fn) :
    GetCurrentFuncName rt
        = Except.ok (fn.name ++ str " line:" ++ strconv.Itoa fr.line ++ str " ")
      ∧ (∃ post, GetCurrentFuncName rt = Except.ok (fn.name ++ post))
      ∧ (∃ pre post, GetCurrentFuncName rt = Except.ok (pre ++ strconv.Itoa fr.line ++ post)) := by
  have h : GetCurrentFuncName rt
      = Except.ok (fn.name ++ str " line:" ++ strconv.Itoa fr.line ++ str " ") := by
    unfold GetCurrentFuncName Runtime.Caller Runtime.FuncForPC
    rw [hc]
    simp only [hf, Func.Name]
  refine ⟨h, ⟨str " line:" ++ strconv.Itoa fr.line ++ str " ", ?_⟩,
    ⟨fn.name ++ str " line:", str " ", ?_⟩⟩
  · rw [h]; simp [List.append_assoc]
  · rw [h]

/-- C9, on a sample call chain: called from `main.run` at line 42 the result is
`"main.run line:42 "`. -/
theorem GetCurrentFuncName_format_witness :
    GetCurrentFuncName sampleRuntime = Except.ok (str "main.run line:42 ") := by
  have h := (GetCurrentFuncName_format sampleRuntime ⟨8192, str "main.go", 42⟩
    ⟨str "main.run"⟩ rfl rfl).1
  rw [h]
  decide

/-- C10, refuted on a sample call chain: the caller's program counter has no
function record, and `GetCurrentFuncName` still returns a string, with an
empty name. -/
theorem GetCurrentFuncName_no_record_counterexample :
    strippedRuntime.FuncForPC (strippedRuntime.Caller 1).1 = none
      ∧ GetCurrentFuncName strippedRuntime = Except.ok (str " line:42 ") := by
  decide

/-- C10, amended: when the program counter of the caller frame has no function
record, `GetCurrentFuncName` does not fault; the name is empty and the result
is `" line:" ++ Itoa line ++ " "`. -/
theorem GetCurrentFuncName_no_record (rt : Runtime)
    (hf : rt.FuncForPC (rt.Caller 1).1 = none) :
    GetCurrentFuncName rt
      = Except.ok (str " line:" ++ strconv.Itoa (rt.Caller 1).2.2.1 ++ str " ") := by
  simp only [GetCurrentFuncName]
  rw [hf]
  simp [Func.Name]

/-- C10, amended, on the sample call chain without function records. -/
theorem GetCurrentFuncName_no_record_witness :
    GetCurrentFuncName strippedRuntime
      = Except.ok (str " line:" ++ strconv.Itoa 42 ++ str " ") :=
  GetCurrentFuncName_no_record strippedRuntime rfl

/-! ## `GetSecret`: failure paths and the remote request -/

/-- The run of `common.GetSecret` in a recording world, case by case. -/
theorem GetSecret_unfold (w : World) (v : GoString) :
    GetSecret w v
      = match w.NewSession { Region := some (w.Getenv (str "region")) } with
        | Except.error err =>
          ⟨SecretDetails.zero, some err,
            [Event.NewSession { Region := some (w.Getenv (str "region")) }]⟩
        | Except.ok sess =>
          match w.GetSecretValue (secretsmanager.New sess)
              { SecretId := some (w.Getenv v), VersionId := none,
                VersionStage := some (str "AWSCURRENT") } with
          | Except.error err =>
            ⟨SecretDetails.zero, some err,
              [Event.NewSession { Region := some (w.Getenv (str "region")) },
                Event.GetSecretValue (secretsmanager.New sess)
                  { SecretId := some (w.Getenv v), VersionId := none,
                    VersionStage := some (str "AWSCURRENT") }]
                ++ (classifyLog err).map Event.Println⟩
          | Except.ok result =>
            match result.SecretString with
            | some secretString =>
              ⟨(json.Unmarshal secretString SecretDetails.zero).1, none,
                [Event.NewSession { Region := some (w.Getenv (str "region")) },
                  Event.GetSecretValue (secretsmanager.New sess)
                    { SecretId := some (w.Getenv v), VersionId := none,
                      VersionStage := some (str "AWSCURRENT") }]⟩
            | none =>
              match base64.Decode result.SecretBinary with
              | Except.error err =>
                ⟨SecretDetails.zero, some err,
                  [Event.NewSession { Region := some (w.Getenv (str "region")) },
                    Event.GetSecretValue (secretsmanager.New sess)
                      { SecretId := some (w.Getenv v), VersionId := none,
                        VersionStage := some (str "AWSCURRENT") }]
                    ++ [Event.Println [str "Base64 Decode Error:", err.Error]]⟩
              | Except.ok decodedBinarySecret =>
                ⟨(json.Unmarshal decodedBinarySecret SecretDetails.zero).1, none,
                  [Event.NewSession { Region := some (w.Getenv (str "region")) },
                    Event.GetSecretValue (secretsmanager.New sess)
                      { SecretId := some (w.Getenv v), VersionId := none,
                        VersionStage := some (str "AWSCURRENT") }]⟩ := by
  have hg : ∀ k, (w.recording).Getenv k = w.Getenv k := fun _ => rfl
  unfold GetSecret common.GetSecret
  simp only [hg]
  simp only [World.recording]
  cases w.NewSession { Region := some (w.Getenv (str "region")) } with
  | error e => rfl
  | ok sess =>
    simp only
    cases w.GetSecretValue (secretsmanager.New sess)
        { SecretId := some (w.Getenv v), VersionId := none,
          VersionStage := some (str "AWSCURRENT") } with
    | error e => rfl
    | ok result =>
      simp only
      cases result.SecretString with
      | some t => rfl
      | none =>
        simp only
        cases base64.Decode result.SecretBinary with
        | error e => rfl
        | ok t => rfl

theorem filter_notLog_Println (ls : List (List GoString)) :
    (ls.map Event.Println).filter (fun x => !x.isLog) = [] := by
  induction ls with
  | nil => rfl
  | cons l ls ih => simp [Event.isLog, ih]

theorem filter_isRequest_Println (ls : List (List GoString)) :
    (ls.map Event.Println).filter Event.isRequest = [] := by
  induction ls with
  | nil => rfl
  | cons l ls ih => simp [Event.isRequest, ih]

/-- C1: whatever error `e` the remote `GetSecretValue` call returns (an
`awserr.Error` with a classified code, with another code, or any other error),
`GetSecret` returns the zero-valued record (five empty strings, `Port = 0`)
and exactly `e`; the classification only contributes log lines. -/
theorem GetSecret_remote_error (w : World) (v : GoString) (sess : session.Session)
    (e : GoError)
    (hs : w.NewSession { Region := some (w.Getenv (str "region")) } = Except.ok sess)
    (hr : w.GetSecretValue (secretsmanager.New sess)
        { SecretId := some (w.Getenv v), VersionId := none,
          VersionStage := some (str "AWSCURRENT") } = Except.error e) :
    (GetSecret w v).details = ⟨[], 0, [], [], [], []⟩
      ∧ (GetSecret w v).err = some e
      ∧ (GetSecret w v).trace.filter (fun x => !x.isLog)
          = [Event.NewSession { Region := some (w.Getenv (str "region")) },
              Event.GetSecretValue (secretsmanager.New sess)
                { SecretId := some (w.Getenv v), VersionId := none,
                  VersionStage := some (str "AWSCURRENT") }] := by
  simp only [GetSecret_unfold, hs, hr]
  refine ⟨by trivial, by trivial, ?_⟩
  rw [List.filter_append, filter_notLog_Println]
  simp [Event.isLog]

/-- C1, on a sample world whose remote call fails with a classified error. -/
theorem GetSecret_remote_error_witness :
    (GetSecret (sampleWorld (Except.error sampleAwsError)) (str "DB_SECRET")).details
        = ⟨[], 0, [], [], [], []⟩
      ∧ (GetSecret (sampleWorld (Except.error sampleAwsError)) (str "DB_SECRET")).err
        = some sampleAwsError :=
  ⟨(GetSecret_remote_error (sampleWorld (Except.error sampleAwsError)) (str "DB_SECRET")
      sampleSession sampleAwsError rfl rfl).1,
    (GetSecret_remote_error (sampleWorld (Except.error sampleAwsError)) (str "DB_SECRET")
      sampleSession sampleAwsError rfl rfl).2.1⟩

/-- C4: on a successful response without a text payload, `GetSecret` returns a
non-nil error exactly when `base64.StdEncoding.Decode` of the binary payload
fails; then the record is the zero value and the error is the decoder's error;
when decoding succeeds, as it does for an empty payload, the error is nil. -/
theorem GetSecret_binary_error_iff (w : World) (v : GoString) (sess : session.Session)
    (out : secretsmanager.GetSecretValueOutput)
    (hs : w.NewSession { Region := some (w.Getenv (str "region")) } = Except.ok sess)
    (hr : w.GetSecretValue (secretsmanager.New sess)
        { SecretId := some (w.Getenv v), VersionId := none,
          VersionStage := some (str "AWSCURRENT") } = Except.ok out)
    (ht : out.SecretString = none) :
    ((GetSecret w v).err ≠ none ↔ ∃ e, base64.Decode out.SecretBinary = Except.error e)
      ∧ (∀ e, base64.Decode out.SecretBinary = Except.error e →
          (GetSecret w v).details = SecretDetails.zero ∧ (GetSecret w v).err = some e)
      ∧ (∀ b, base64.Decode out.SecretBinary = Except.ok b → (GetSecret w v).err = none)
      ∧ (out.SecretBinary = [] → (GetSecret w v).err = none) := by
  have hempty : base64.Decode [] = Except.ok [] := rfl
  simp only [GetSecret_unfold, hs, hr, ht]
  refine ⟨?_, ?_, ?_, ?_⟩
  · cases hd : base64.Decode out.SecretBinary <;> simp
  · intro e he; simp [he]
  · intro b hb; simp [hb]
  · intro hb; rw [hb, hempty]

/-- C4, on a sample world answering the invalid base64 payload `"a"`. -/
theorem GetSecret_binary_error_iff_witness :
    base64.Decode (str "a") = Except.error (GoError.corruptInput 0)
      ∧ (GetSecret (sampleWorld (Except.ok ⟨none, str "a"⟩)) (str "DB_SECRET")).details
          = SecretDetails.zero
      ∧ (GetSecret (sampleWorld (Except.ok ⟨none, str "a"⟩)) (str "DB_SECRET")).err
          = some (GoError.corruptInput 0) :=
  ⟨by decide,
    (GetSecret_binary_error_iff (sampleWorld (Except.ok ⟨none, str "a"⟩)) (str "DB_SECRET")
      sampleSession ⟨none, str "a"⟩ rfl rfl rfl).2.1 (GoError.corruptInput 0) (by decide)⟩

/-- C5: on a successful response that carries a text payload `t`, whatever `t`
is and whatever the binary field holds, `GetSecret` returns a nil error, the
record is what `json.Unmarshal` leaves after reading `t` (its error is
dropped), and nothing is logged: the trace is the session construction and the
request. The binary field takes no part in any of the three. -/
theorem GetSecret_text_no_error (w : World) (v : GoString) (sess : session.Session)
    (out : secretsmanager.GetSecretValueOutput) (t : GoString)
    (hs : w.NewSession { Region := some (w.Getenv (str "region")) } = Except.ok sess)
    (hr : w.GetSecretValue (secretsmanager.New sess)
        { SecretId := some (w.Getenv v), VersionId := none,
          VersionStage := some (str "AWSCURRENT") } = Except.ok out)
    (ht : out.SecretString = some t) :
    (GetSecret w v).err = none
      ∧ (GetSecret w v).details = (json.Unmarshal t SecretDetails.zero).1
      ∧ (GetSecret w v).trace
          = [Event.NewSession { Region := some (w.Getenv (str "region")) },
              Event.GetSecretValue (secretsmanager.New sess)
                { SecretId := some (w.Getenv v), VersionId := none,
                  VersionStage := some (str "AWSCURRENT") }] := by
  simp only [GetSecret_unfold, hs, hr, ht]
  exact ⟨by trivial, by trivial, by trivial⟩

/-- C5, on a sample world answering the text `{` (not JSON) next to a binary
field that is not base64: `Unmarshal` reports a syntax error, `GetSecret` none. -/
theorem GetSecret_text_no_error_witness :
    (json.Unmarshal (str "\x7b") SecretDetails.zero).2 = some json.JsonError.SyntaxError
      ∧ base64.Decode (str "a") = Except.error (GoError.corruptInput 0)
      ∧ (GetSecret (sampleWorld (Except.ok ⟨some (str "\x7b"), str "a"⟩)) (str "DB_SECRET")).err
          = none :=
  ⟨by decide, by decide,
    (GetSecret_text_no_error (sampleWorld (Except.ok ⟨some (str "\x7b"), str "a"⟩))
      (str "DB_SECRET") sampleSession ⟨some (str "\x7b"), str "a"⟩ (str "\x7b") rfl rfl rfl).1⟩

/-- C7: when `session.NewSession` fails with `e`, `GetSecret` returns the zero
value and exactly `e`, and its trace holds the session construction only: no
remote request is issued. And whenever `GetSecret` returns a non-nil error, the
record it returns is the zero value. -/
theorem GetSecret_session_error (w : World) (v : GoString) :
    (∀ e, w.NewSession { Region := some (w.Getenv (str "region")) } = Except.error e →
        (GetSecret w v).details = SecretDetails.zero ∧ (GetSecret w v).err = some e
          ∧ (GetSecret w v).trace = [Event.NewSession { Region := some (w.Getenv (str "region")) }]
          ∧ (GetSecret w v).trace.filter Event.isRequest = [])
      ∧ ((GetSecret w v).err ≠ none → (GetSecret w v).details = SecretDetails.zero) := by
  constructor
  · intro e he
    simp only [GetSecret_unfold, he]
    exact ⟨by trivial, by trivial, by trivial, by trivial⟩
  · rw [GetSecret_unfold]
    split
    · intro _; rfl
    · split
      · intro _; rfl
      · split
        · intro h; exact absurd rfl h
        · split
          · intro _; rfl
          · intro h; exact absurd rfl h

/-- C7, on a sample world whose session constructor fails. -/
theorem GetSecret_session_error_witness :
    (GetSecret (noSessionWorld (GoError.plain (str "bad region"))) (str "DB_SECRET")).details
        = SecretDetails.zero
      ∧ (GetSecret (noSessionWorld (GoError.plain (str "bad region"))) (str "DB_SECRET")).err
        = some (GoError.plain (str "bad region"))
      ∧ (GetSecret (noSessionWorld (GoError.plain (str "bad region"))) (str "DB_SECRET")).trace
        = [Event.NewSession { Region := some (str "us-east-1") }] :=
  ⟨((GetSecret_session_error (noSessionWorld (GoError.plain (str "bad region")))
      (str "DB_SECRET")).1 (GoError.plain (str "bad region")) rfl).1,
    ((GetSecret_session_error (noSessionWorld (GoError.plain (str "bad region")))
      (str "DB_SECRET")).1 (GoError.plain (str "bad region")) rfl).2.1,
    ((GetSecret_session_error (noSessionWorld (GoError.plain (str "bad region")))
      (str "DB_SECRET")).1 (GoError.plain (str "bad region")) rfl).2.2.1⟩

/-- C8, refuted on the SDK between the code and the network. With the variable
named by the argument unset, the session is built and the one call of
`GetSecretValue` ends in the parameter validation of the SDK: no request is
sent. With an endpoint that answers status 500, the one call sends four
requests. In neither run is exactly one remote request issued. -/
theorem GetSecret_single_request_counterexample :
    sampleEnviron (str "UNSET_SECRET") = none
      ∧ (sdk.system sampleEnviron sampleEndpoint).NewSession
          { Region := some ((sdk.system sampleEnviron sampleEndpoint).Getenv (str "region")) } []
          = (Except.ok ⟨0, { Region := some (str "us-east-1") }⟩, [])
      ∧ (common.GetSecret (sdk.system sampleEnviron sampleEndpoint) (str "UNSET_SECRET") []).state
          = []
      ∧ (common.GetSecret (sdk.system sampleEnviron sampleEndpoint) (str "UNSET_SECRET") []).err
          = sdk.validationError
              { SecretId := some [], VersionId := none, VersionStage := some (str "AWSCURRENT") }
      ∧ (common.GetSecret (sdk.system sampleEnviron sampleEndpoint) (str "UNSET_SECRET") []).err
          ≠ none
      ∧ (common.GetSecret (sdk.system sampleEnviron failingEndpoint) (str "DB_SECRET")
          []).state.length = 4
      ∧ (common.GetSecret (sdk.system sampleEnviron failingEndpoint) (str "DB_SECRET") []).state
          = List.replicate 4
              ⟨str "us-east-1",
                { SecretId := some (str "prod/db"), VersionId := none,
                  VersionStage := some (str "AWSCURRENT") }⟩ := by
  decide

/-- C8, amended: for every outside world, every state of it and every argument
`v`, when `session.NewSession`, called with a `Config` whose `Region` is the
value of the variable `region`, returns a session, `GetSecret` leaves the world
in the state that one call of `GetSecretValue` leaves: the call is made on the
client of that session, in the state the session constructor left, with
`SecretId` the value of the variable `v` (empty when `v` is unset; the code
does not validate it), `VersionStage` `"AWSCURRENT"` and no `VersionId`. The
error of that call is returned as it is, on every outcome: the code calls
once and never again. -/
theorem GetSecret_single_call {σ : Type} (sys : System σ) (v : GoString) (s0 s1 : σ)
    (sess : session.Session)
    (hs : sys.NewSession { Region := some (sys.Getenv (str "region")) } s0
      = (Except.ok sess, s1)) :
    (common.GetSecret sys v s0).state
        = (sys.GetSecretValue (secretsmanager.New sess)
            { SecretId := some (sys.Getenv v), VersionId := none,
              VersionStage := some (str "AWSCURRENT") } s1).2
      ∧ (sys.environ v = none →
          (common.GetSecret sys v s0).state
            = (sys.GetSecretValue (secretsmanager.New sess)
                { SecretId := some [], VersionId := none,
                  VersionStage := some (str "AWSCURRENT") } s1).2)
      ∧ (∀ e, (sys.GetSecretValue (secretsmanager.New sess)
            { SecretId := some (sys.Getenv v), VersionId := none,
              VersionStage := some (str "AWSCURRENT") } s1).1 = Except.error e →
          (common.GetSecret sys v s0).err = some e) := by
  have main : (common.GetSecret sys v s0).state
        = (sys.GetSecretValue (secretsmanager.New sess)
            { SecretId := some (sys.Getenv v), VersionId := none,
              VersionStage := some (str "AWSCURRENT") } s1).2
      ∧ (∀ e, (sys.GetSecretValue (secretsmanager.New sess)
            { SecretId := some (sys.Getenv v), VersionId := none,
              VersionStage := some (str "AWSCURRENT") } s1).1 = Except.error e →
          (common.GetSecret sys v s0).err = some e) := by
    unfold common.GetSecret
    simp only [hs]
    cases hcall : sys.GetSecretValue (secretsmanager.New sess)
        { SecretId := some (sys.Getenv v), VersionId := none,
          VersionStage := some (str "AWSCURRENT") } s1 with
    | mk r s2 =>
      cases r with
      | error e0 =>
        refine ⟨rfl, ?_⟩
        intro e he
        simp only [Except.error.injEq] at he
        rw [he]
      | ok result =>
        simp only
        refine ⟨?_, ?_⟩
        · cases result.SecretString with
          | some t => rfl
          | none =>
            simp only
            cases base64.Decode result.SecretBinary with
            | error e1 => rfl
            | ok t => rfl
        · intro e he
          exact absurd he (by simp)
  refine ⟨main.1, ?_, main.2⟩
  intro hunset
  have hempty : sys.Getenv v = [] := by
    unfold System.Getenv
    rw [hunset]
  rw [← hempty]
  exact main.1

/-- C8, amended, on the sample environment with the SDK and an endpoint that
answers: the session is built for `us-east-1`, and what `GetSecret` leaves on
the network is what its one call sends, a single request for `prod/db`. -/
theorem GetSecret_single_call_witness :
    sdk.NewSession sampleEnviron { Region := some (str "us-east-1") } []
        = (Except.ok ⟨0, { Region := some (str "us-east-1") }⟩, [])
      ∧ (common.GetSecret (sdk.system sampleEnviron sampleEndpoint) (str "DB_SECRET") []).state
          = (sdk.GetSecretValue sampleEndpoint ⟨⟨0, { Region := some (str "us-east-1") }⟩⟩
              { SecretId := some (str "prod/db"), VersionId := none,
                VersionStage := some (str "AWSCURRENT") } []).2
      ∧ (sdk.GetSecretValue sampleEndpoint ⟨⟨0, { Region := some (str "us-east-1") }⟩⟩
              { SecretId := some (str "prod/db"), VersionId := none,
                VersionStage := some (str "AWSCURRENT") } []).2
          = [⟨str "us-east-1",
              { SecretId := some (str "prod/db"), VersionId := none,
                VersionStage := some (str "AWSCURRENT") }⟩] :=
  ⟨by decide,
    (GetSecret_single_call (sdk.system sampleEnviron sampleEndpoint) (str "DB_SECRET") [] []
      ⟨0, { Region := some (str "us-east-1") }⟩ (by decide)).1,
    by decide⟩

/-! ## Base64: decoding inverts encoding -/

theorem toByte_val (b : Byte) : toByte b.val = b := by
  apply Fin.ext
  simp [toByte, Nat.mod_eq_of_lt b.isLt]

theorem toByte_val_eq (n : Nat) : (toByte n).val = n % 256 := rfl

namespace base64

theorem decodeMap_encodeChar (i : Nat) (h : i < 64) : decodeMap (encodeChar i) = some i := by
  interval_cases i <;> rfl

theorem decodeMap_pad : decodeMap (toByte 61) = none := by decide

theorem quantumBytes_four (a b c : Byte) :
    quantumBytes [a.val / 4, a.val % 4 * 16 + b.val / 16, b.val % 16 * 4 + c.val / 64, c.val % 64]
      = [a, b, c] := by
  have ha := a.isLt
  have hb := b.isLt
  have hc := c.isLt
  simp only [quantumBytes, List.getD_cons_zero, List.getD_cons_succ, List.length_cons,
    List.length_nil]
  simp only [List.take, List.cons.injEq, and_true]
  refine ⟨?_, ?_, ?_⟩ <;> apply Fin.ext <;> simp only [toByte_val_eq] <;> omega

theorem quantumBytes_three (a b : Byte) :
    quantumBytes [a.val / 4, a.val % 4 * 16 + b.val / 16, b.val % 16 * 4] = [a, b] := by
  have ha := a.isLt
  have hb := b.isLt
  simp only [quantumBytes, List.getD_cons_zero, List.getD_cons_succ, List.length_cons,
    List.length_nil, List.getD_nil]
  simp only [List.take, List.cons.injEq, and_true]
  refine ⟨?_, ?_⟩ <;> apply Fin.ext <;> simp only [toByte_val_eq] <;> omega

theorem quantumBytes_two (a : Byte) :
    quantumBytes [a.val / 4, a.val % 4 * 16] = [a] := by
  have ha := a.isLt
  simp only [quantumBytes, List.getD_cons_zero, List.getD_cons_succ, List.length_cons,
    List.length_nil, List.getD_nil]
  simp only [List.take, List.cons.injEq, and_true]
  apply Fin.ext
  simp only [toByte_val_eq]
  omega

theorem decodeLoop_Encode (t : GoString) : ∀ si, decodeLoop (Encode t) si [] = Except.ok t := by
  induction t using Encode.induct with
  | case1 => intro si; rfl
  | case2 a =>
    intro si
    have ha := a.isLt
    simp (disch := omega) [Encode, decodeLoop, decodeMap_encodeChar, decodeMap_pad, skipNewlines,
      finishPadded, quantumBytes_two, toByte_val_eq]
  | case3 a b =>
    intro si
    have ha := a.isLt
    have hb := b.isLt
    simp (disch := omega) [Encode, decodeLoop, decodeMap_encodeChar, decodeMap_pad, skipNewlines,
      finishPadded, quantumBytes_three, toByte_val_eq]
  | case4 a b c rest ih =>
    intro si
    have ha := a.isLt
    have hb := b.isLt
    have hc := c.isLt
    simp (disch := omega) [Encode, decodeLoop, decodeMap_encodeChar, ih, quantumBytes_four]

theorem Decode_Encode (t : GoString) : Decode (Encode t) = Except.ok t :=
  decodeLoop_Encode t 0

end base64

/-- C3: for every payload `t`, a response with no text field whose binary field
is the standard base64 encoding of `t` and a response whose text field is `t`
(whatever its binary field) make `GetSecret` return the same record, both with
a nil error. -/
theorem GetSecret_binary_text_agree (w1 w2 : World) (v1 v2 : GoString)
    (sess1 sess2 : session.Session) (t other : GoString)
    (hs1 : w1.NewSession { Region := some (w1.Getenv (str "region")) } = Except.ok sess1)
    (hr1 : w1.GetSecretValue (secretsmanager.New sess1)
        { SecretId := some (w1.Getenv v1), VersionId := none,
          VersionStage := some (str "AWSCURRENT") } = Except.ok ⟨none, base64.Encode t⟩)
    (hs2 : w2.NewSession { Region := some (w2.Getenv (str "region")) } = Except.ok sess2)
    (hr2 : w2.GetSecretValue (secretsmanager.New sess2)
        { SecretId := some (w2.Getenv v2), VersionId := none,
          VersionStage := some (str "AWSCURRENT") } = Except.ok ⟨some t, other⟩) :
    (GetSecret w1 v1).details = (GetSecret w2 v2).details
      ∧ (GetSecret w1 v1).err = none ∧ (GetSecret w2 v2).err = none
      ∧ (GetSecret w1 v1).details = (json.Unmarshal t SecretDetails.zero).1 := by
  simp only [GetSecret_unfold, hs1, hr1, hs2, hr2, base64.Decode_Encode]
  exact ⟨by trivial, by trivial, by trivial, by trivial⟩

/-- C3, on sample worlds: the binary payload `eyJwb3J0Ijo3fQ==` and the text
payload `{"port":7}` give the same record, with `Port = 7`. -/
theorem GetSecret_binary_text_agree_witness :
    base64.Encode (str "\x7b\"port\":7\x7d") = str "eyJwb3J0Ijo3fQ=="
      ∧ (GetSecret (sampleWorld (Except.ok ⟨none, base64.Encode (str "\x7b\"port\":7\x7d")⟩))
            (str "DB_SECRET")).details
          = (GetSecret (sampleWorld (Except.ok ⟨some (str "\x7b\"port\":7\x7d"), []⟩))
            (str "DB_SECRET")).details
      ∧ (GetSecret (sampleWorld (Except.ok ⟨some (str "\x7b\"port\":7\x7d"), []⟩))
            (str "DB_SECRET")).details = ⟨[], 7, [], [], [], []⟩ :=
  ⟨by decide,
    (GetSecret_binary_text_agree
      (sampleWorld (Except.ok ⟨none, base64.Encode (str "\x7b\"port\":7\x7d")⟩))
      (sampleWorld (Except.ok ⟨some (str "\x7b\"port\":7\x7d"), []⟩))
      (str "DB_SECRET") (str "DB_SECRET") sampleSession sampleSession
      (str "\x7b\"port\":7\x7d") [] rfl rfl rfl rfl).1,
    by decide⟩

/-! ## `json.Unmarshal`: syntax errors leave the struct untouched -/

namespace json

theorem storeString_noSyntaxError (cur : GoString) (v : Value) :
    (storeString cur v).2 ≠ some JsonError.SyntaxError := by
  cases v <;> simp [storeString]

theorem storeInt_noSyntaxError (cur : Int) (v : Value) :
    (storeInt cur v).2 ≠ some JsonError.SyntaxError := by
  cases v <;> simp [storeInt]
  split <;> simp

theorem setField_noSyntaxError (d : SecretDetails) (f : Field) (v : Value) :
    (setField d f v).2 ≠ some JsonError.SyntaxError := by
  cases f <;> simp only [setField]
  all_goals first | exact storeString_noSyntaxError _ v | exact storeInt_noSyntaxError _ v

theorem saveError_noSyntaxError (a b : Option JsonError) (ha : a ≠ some JsonError.SyntaxError)
    (hb : b ≠ some JsonError.SyntaxError) : saveError a b ≠ some JsonError.SyntaxError := by
  cases a <;> simp_all [saveError]

theorem storeMembers_noSyntaxError (ms : List (GoString × Value)) :
    ∀ (d : SecretDetails) (saved : Option JsonError), saved ≠ some JsonError.SyntaxError →
      (storeMembers ms d saved).2 ≠ some JsonError.SyntaxError := by
  induction ms with
  | nil => intro d saved h; simpa [storeMembers] using h
  | cons m ms ih =>
    intro d saved h
    obtain ⟨key, v⟩ := m
    simp only [storeMembers]
    split
    · exact ih d saved h
    · exact ih _ _ (saveError_noSyntaxError _ _ h (setField_noSyntaxError _ _ _))

theorem store_noSyntaxError (d : SecretDetails) (v : Value) :
    (store d v).2 ≠ some JsonError.SyntaxError := by
  cases v <;> simp [store]
  exact storeMembers_noSyntaxError _ d none (by simp)

/-- `Unmarshal` reports a syntax error only for input that is not a JSON text,
and then leaves the struct as it was. -/
theorem Unmarshal_syntax_error (data : GoString) (v : SecretDetails)
    (h : (Unmarshal data v).2 = some JsonError.SyntaxError) : (Unmarshal data v).1 = v := by
  unfold Unmarshal at h ⊢
  split
  · rfl
  · rename_i j hj
    rw [hj] at h
    exact absurd h (store_noSyntaxError v j)

end json

/-- A type error is not a syntax error. The text `{"dbname":"d","port":"x"}` is
well-formed JSON; `json.Unmarshal` reports an `UnmarshalTypeError` for `port`
and keeps what it decoded before, so `GetSecret` returns `Dbname = "d"`. -/
theorem GetSecret_type_error_example :
    (json.Unmarshal (str "\x7b\"dbname\":\"d\",\"port\":\"x\"\x7d") SecretDetails.zero).2
        = some (json.JsonError.UnmarshalTypeError (str "string"))
      ∧ (GetSecret (sampleWorld (Except.ok ⟨some (str "\x7b\"dbname\":\"d\",\"port\":\"x\"\x7d"), []⟩))
          (str "DB_SECRET")).err = none
      ∧ (GetSecret (sampleWorld (Except.ok ⟨some (str "\x7b\"dbname\":\"d\",\"port\":\"x\"\x7d"), []⟩))
          (str "DB_SECRET")).details = ⟨str "d", 0, [], [], [], []⟩
      ∧ (GetSecret (sampleWorld (Except.ok ⟨some (str "\x7b\"dbname\":\"d\",\"port\":\"x\"\x7d"), []⟩))
          (str "DB_SECRET")).details ≠ SecretDetails.zero := by
  decide

/-- C6: on a successful response whose payload text `t` (the text field, or
the decoded binary field when there is no text field) is malformed JSON, so
that parsing fails and `json.Unmarshal` reports a `SyntaxError`, the record
`GetSecret` returns is the zero value: every field remains zero-valued, and
the error is nil. -/
theorem GetSecret_syntax_error_zero (w : World) (v : GoString) (sess : session.Session)
    (out : secretsmanager.GetSecretValueOutput) (t : GoString)
    (hs : w.NewSession { Region := some (w.Getenv (str "region")) } = Except.ok sess)
    (hr : w.GetSecretValue (secretsmanager.New sess)
        { SecretId := some (w.Getenv v), VersionId := none,
          VersionStage := some (str "AWSCURRENT") } = Except.ok out)
    (hp : out.SecretString = some t
      ∨ (out.SecretString = none ∧ base64.Decode out.SecretBinary = Except.ok t))
    (hj : (json.Unmarshal t SecretDetails.zero).2 = some json.JsonError.SyntaxError) :
    (GetSecret w v).details = SecretDetails.zero ∧ (GetSecret w v).err = none := by
  have hz := json.Unmarshal_syntax_error t SecretDetails.zero hj
  rcases hp with ht | ⟨ht, hb⟩
  · simp only [GetSecret_unfold, hs, hr, ht, hz]
    exact ⟨by trivial, by trivial⟩
  · simp only [GetSecret_unfold, hs, hr, ht, hb, hz]
    exact ⟨by trivial, by trivial⟩

/-- C6, on a sample world answering the binary payload `ew==`, the base64 form
of the malformed text `{`. -/
theorem GetSecret_syntax_error_zero_witness :
    base64.Decode (str "ew==") = Except.ok (str "\x7b")
      ∧ (json.Unmarshal (str "\x7b") SecretDetails.zero).2 = some json.JsonError.SyntaxError
      ∧ (GetSecret (sampleWorld (Except.ok ⟨none, str "ew=="⟩)) (str "DB_SECRET")).details
          = SecretDetails.zero :=
  ⟨by decide, by decide,
    (GetSecret_syntax_error_zero (sampleWorld (Except.ok ⟨none, str "ew=="⟩)) (str "DB_SECRET")
      sampleSession ⟨none, str "ew=="⟩ (str "\x7b") rfl rfl (Or.inr ⟨rfl, by decide⟩)
      (by decide)).1⟩

/-! ## JSON string literals and decimal numbers: reading inverts writing -/

namespace utf8

/-- A Unicode scalar value: not a surrogate, at most U+10FFFF. -/
theorem char_scalar (c : Char) : c.toNat < 0xD800 ∨ (0xDFFF < c.toNat ∧ c.toNat < 0x110000) :=
  c.valid

theorem DecodeRune_two (r : Nat) (more : GoString) (h1 : 0x80 ≤ r) (h2 : r ≤ 0x7FF) :
    DecodeRune (toByte (0xC0 + r / 64) :: toByte (0x80 + r % 64) :: more) = (r, 2) := by
  have e0 : (toByte (0xC0 + r / 64)).val = 0xC0 + r / 64 := by
    rw [toByte_val_eq]; omega
  have e1 : (toByte (0x80 + r % 64)).val = 0x80 + r % 64 := by
    rw [toByte_val_eq]; omega
  have hl : leadInfo (toByte (0xC0 + r / 64)) = some (2, 0x80, 0xBF) := by
    unfold leadInfo
    rw [e0, if_neg (by omega), if_pos (by omega)]
  have hr : inRange (toByte (0x80 + r % 64)) 0x80 0xBF = true := by
    simp only [inRange, e1, Bool.and_eq_true, decide_eq_true_eq]; omega
  simp only [DecodeRune, hl, hr, e0, e1]
  rw [if_neg (by omega), if_neg (by simp), if_neg (by simp), if_pos (by omega)]
  simp only [Prod.mk.injEq, and_true]
  omega

theorem DecodeRune_three (r : Nat) (more : GoString) (h1 : 0x800 ≤ r) (h2 : r ≤ 0xFFFF)
    (hs : r < 0xD800 ∨ 0xDFFF < r) :
    DecodeRune (toByte (0xE0 + r / 4096) :: toByte (0x80 + r / 64 % 64)
      :: toByte (0x80 + r % 64) :: more) = (r, 3) := by
  have e0 : (toByte (0xE0 + r / 4096)).val = 0xE0 + r / 4096 := by
    rw [toByte_val_eq]; omega
  have e1 : (toByte (0x80 + r / 64 % 64)).val = 0x80 + r / 64 % 64 := by
    rw [toByte_val_eq]; omega
  have e2 : (toByte (0x80 + r % 64)).val = 0x80 + r % 64 := by
    rw [toByte_val_eq]; omega
  have hr2 : inRange (toByte (0x80 + r % 64)) 0x80 0xBF = true := by
    simp only [inRange, e2, Bool.and_eq_true, decide_eq_true_eq]; omega
  have hl : ∃ lo hi, leadInfo (toByte (0xE0 + r / 4096)) = some (3, lo, hi)
      ∧ inRange (toByte (0x80 + r / 64 % 64)) lo hi = true := by
    unfold leadInfo
    rw [e0]
    by_cases c0 : r / 4096 = 0
    · refine ⟨0xA0, 0xBF, ?_, ?_⟩
      · rw [if_neg (by omega), if_neg (by omega), if_pos (by omega)]
      · simp only [inRange, e1, Bool.and_eq_true, decide_eq_true_eq]; omega
    · by_cases c1 : r / 4096 = 13
      · refine ⟨0x80, 0x9F, ?_, ?_⟩
        · rw [if_neg (by omega), if_neg (by omega), if_neg (by omega), if_pos (by omega)]
        · simp only [inRange, e1, Bool.and_eq_true, decide_eq_true_eq]; omega
      · refine ⟨0x80, 0xBF, ?_, ?_⟩
        · rw [if_neg (by omega), if_neg (by omega), if_neg (by omega), if_neg (by omega),
            if_pos (by omega)]
        · simp only [inRange, e1, Bool.and_eq_true, decide_eq_true_eq]; omega
  obtain ⟨lo, hi, hl, hr1⟩ := hl
  simp only [DecodeRune, hl, hr1, hr2, e0, e1, e2]
  rw [if_neg (by omega), if_neg (by simp), if_neg (by simp), if_neg (by omega),
    if_neg (by simp), if_pos (by omega)]
  simp only [Prod.mk.injEq, and_true]
  omega

theorem DecodeRune_four (r : Nat) (more : GoString) (h1 : 0x10000 ≤ r) (h2 : r ≤ 0x10FFFF) :
    DecodeRune (toByte (0xF0 + r / 262144) :: toByte (0x80 + r / 4096 % 64)
      :: toByte (0x80 + r / 64 % 64) :: toByte (0x80 + r % 64) :: more) = (r, 4) := by
  have e0 : (toByte (0xF0 + r / 262144)).val = 0xF0 + r / 262144 := by
    rw [toByte_val_eq]; omega
  have e1 : (toByte (0x80 + r / 4096 % 64)).val = 0x80 + r / 4096 % 64 := by
    rw [toByte_val_eq]; omega
  have e2 : (toByte (0x80 + r / 64 % 64)).val = 0x80 + r / 64 % 64 := by
    rw [toByte_val_eq]; omega
  have e3 : (toByte (0x80 + r % 64)).val = 0x80 + r % 64 := by
    rw [toByte_val_eq]; omega
  have hr2 : inRange (toByte (0x80 + r / 64 % 64)) 0x80 0xBF = true := by
    simp only [inRange, e2, Bool.and_eq_true, decide_eq_true_eq]; omega
  have hr3 : inRange (toByte (0x80 + r % 64)) 0x80 0xBF = true := by
    simp only [inRange, e3, Bool.and_eq_true, decide_eq_true_eq]; omega
  have hl : ∃ lo hi, leadInfo (toByte (0xF0 + r / 262144)) = some (4, lo, hi)
      ∧ inRange (toByte (0x80 + r / 4096 % 64)) lo hi = true := by
    unfold leadInfo
    rw [e0]
    by_cases c0 : r / 262144 = 0
    · refine ⟨0x90, 0xBF, ?_, ?_⟩
      · rw [if_neg (by omega), if_neg (by omega), if_neg (by omega), if_neg (by omega),
          if_neg (by omega), if_pos (by omega)]
      · simp only [inRange, e1, Bool.and_eq_true, decide_eq_true_eq]; omega
    · by_cases c1 : r / 262144 = 4
      · refine ⟨0x80, 0x8F, ?_, ?_⟩
        · rw [if_neg (by omega), if_neg (by omega), if_neg (by omega), if_neg (by omega),
            if_neg (by omega), if_neg (by omega), if_neg (by omega), if_pos (by omega)]
        · simp only [inRange, e1, Bool.and_eq_true, decide_eq_true_eq]; omega
      · refine ⟨0x80, 0xBF, ?_, ?_⟩
        · rw [if_neg (by omega), if_neg (by omega), if_neg (by omega), if_neg (by omega),
            if_neg (by omega), if_neg (by omega), if_pos (by omega)]
        · simp only [inRange, e1, Bool.and_eq_true, decide_eq_true_eq]; omega
  obtain ⟨lo, hi, hl, hr1⟩ := hl
  simp only [DecodeRune, hl, hr1, hr2, hr3, e0, e1, e2, e3]
  rw [if_neg (by omega), if_neg (by simp), if_neg (by simp), if_neg (by omega),
    if_neg (by simp), if_neg (by omega), if_neg (by simp)]
  simp only [Prod.mk.injEq, and_true]
  omega

/-- Every byte of the encoding of a rune from U+0020 on, other than the
quotation mark and the backslash, is an ordinary string byte for the scanner. -/
theorem EncodeRune_plain (r : Nat) (h32 : 32 ≤ r) (h34 : r ≠ 34) (h92 : r ≠ 92) :
    ∀ b ∈ EncodeRune r, b.val ≠ 34 ∧ b.val ≠ 92 ∧ 32 ≤ b.val := by
  intro b hb
  unfold EncodeRune at hb
  split_ifs at hb <;> simp only [List.mem_cons, List.mem_singleton, List.not_mem_nil, or_false] at hb
  all_goals
    rcases hb with rfl | rfl | rfl | rfl <;> simp only [toByte_val_eq] <;> omega

end utf8

namespace json

theorem scanString_plain (bs : GoString) (hbs : ∀ b ∈ bs, b.val ≠ 34 ∧ b.val ≠ 92 ∧ 32 ≤ b.val)
    (cs raw rest : GoString) (h : scanStringFrom StringState.inString cs = some (raw, rest)) :
    scanStringFrom StringState.inString (bs ++ cs) = some (bs ++ raw, rest) := by
  induction bs with
  | nil => simpa using h
  | cons b bs ih =>
    have hb := hbs b (List.mem_cons_self _ _)
    have ih1 := ih (fun x hx => hbs x (List.mem_cons_of_mem _ hx))
    rw [List.cons_append, scanStringFrom]
    rw [if_neg hb.1, if_neg hb.2.1, if_neg (by omega), ih1]
    rfl

theorem scanString_escape (e : Byte) (he : isSimpleEscape e = true) (cs raw rest : GoString)
    (h : scanStringFrom StringState.inString cs = some (raw, rest)) :
    scanStringFrom StringState.inString (toByte 92 :: e :: cs)
      = some (toByte 92 :: e :: raw, rest) := by
  rw [scanStringFrom, if_neg (by decide), if_pos (by decide), scanStringFrom, if_pos he, h]
  rfl

theorem hexVal_hexDigit (n : Nat) (h : n < 16) : hexVal (hexDigit n) = some n := by
  interval_cases n <;> rfl

theorem scanString_control (n : Nat) (hn : n < 32) (cs raw rest : GoString)
    (h : scanStringFrom StringState.inString cs = some (raw, rest)) :
    scanStringFrom StringState.inString (toByte 92 :: toByte 117 :: toByte 48 :: toByte 48
        :: hexDigit (n / 16) :: hexDigit (n % 16) :: cs)
      = some (toByte 92 :: toByte 117 :: toByte 48 :: toByte 48 :: hexDigit (n / 16)
        :: hexDigit (n % 16) :: raw, rest) := by
  have h1 := hexVal_hexDigit (n / 16) (by omega)
  have h2 := hexVal_hexDigit (n % 16) (by omega)
  have h0 : hexVal (toByte 48) = some 0 := by decide
  rw [scanStringFrom, if_neg (by decide), if_pos (by decide), scanStringFrom,
    if_neg (by decide), if_pos (by decide), scanStringFrom, h0, scanStringFrom, h0,
    scanStringFrom, h1, scanStringFrom, h2, h]
  rfl

/-- The scanner accepts the body of a quoted text up to its closing quote. -/
theorem scanString_jsonQuoteChar (c : Char) (cs raw rest : GoString)
    (h : scanStringFrom StringState.inString cs = some (raw, rest)) :
    scanStringFrom StringState.inString (jsonQuoteChar c ++ cs)
      = some (jsonQuoteChar c ++ raw, rest) := by
  unfold jsonQuoteChar
  split_ifs with h34 h92 h32
  · exact scanString_escape (toByte 34) (by decide) cs raw rest h
  · exact scanString_escape (toByte 92) (by decide) cs raw rest h
  · exact scanString_control c.toNat h32 cs raw rest h
  · exact scanString_plain _ (utf8.EncodeRune_plain c.toNat (by omega) h34 h92) cs raw rest h

theorem scanString_jsonQuoteBody (d : List Char) (rest : GoString) :
    scanStringFrom StringState.inString (jsonQuoteBody d ++ toByte 34 :: rest)
      = some (jsonQuoteBody d, rest) := by
  induction d with
  | nil =>
    rw [jsonQuoteBody, List.nil_append, scanStringFrom, if_pos (by decide)]
  | cons c cs ih =>
    rw [jsonQuoteBody, List.append_assoc]
    exact scanString_jsonQuoteChar c _ _ _ ih

theorem unquoteFrom_step (c : Byte) (cs out t : GoString) (n : Nat)
    (hs : unquoteStep (c :: cs) = some (out, n)) (ht : unquoteFrom (n - 1) cs = some t) :
    unquoteFrom 0 (c :: cs) = some (out ++ t) := by
  rw [unquoteFrom, hs]
  simp only [ht]

theorem unquoteFrom_skip (bs more : GoString) :
    unquoteFrom bs.length (bs ++ more) = unquoteFrom 0 more := by
  induction bs with
  | nil => rfl
  | cons b bs ih => rw [List.length_cons, List.cons_append, unquoteFrom, ih]

theorem unquoteStep_escape (e : Byte) (b : Byte) (he : e.val ≠ 117) (hb : escapeByte e = some b)
    (cs : GoString) : unquoteStep (toByte 92 :: e :: cs) = some ([b], 2) := by
  unfold unquoteStep
  simp only
  rw [if_pos (by decide), if_neg he, hb]

theorem unquoteStep_control (n : Nat) (hn : n < 32) (cs : GoString) :
    unquoteStep (toByte 92 :: toByte 117 :: toByte 48 :: toByte 48 :: hexDigit (n / 16)
        :: hexDigit (n % 16) :: cs) = some (utf8.EncodeRune n, 6) := by
  have h1 := hexVal_hexDigit (n / 16) (by omega)
  have h2 := hexVal_hexDigit (n % 16) (by omega)
  have h0 : hexVal (toByte 48) = some 0 := by decide
  have hg : getu4 (toByte 92 :: toByte 117 :: toByte 48 :: toByte 48 :: hexDigit (n / 16)
        :: hexDigit (n % 16) :: cs) = some n := by
    unfold getu4
    simp only
    rw [if_pos (by decide)]
    simp only [h0, h1, h2, Option.some.injEq]
    omega
  unfold unquoteStep
  simp only
  rw [if_pos (by decide), if_pos (by decide), hg]
  simp only
  rw [if_neg (by omega)]

theorem unquoteStep_ascii (c : Byte) (cs : GoString) (h32 : 32 ≤ c.val) (h34 : c.val ≠ 34)
    (h92 : c.val ≠ 92) (h : c.val < 0x80) : unquoteStep (c :: cs) = some ([c], 1) := by
  unfold unquoteStep
  simp only
  rw [if_neg h92, if_neg (by omega), if_pos h]

theorem unquoteStep_high (c : Byte) (cs : GoString) (h : 0x80 ≤ c.val) :
    unquoteStep (c :: cs)
      = some (utf8.EncodeRune (utf8.DecodeRune (c :: cs)).1, (utf8.DecodeRune (c :: cs)).2) := by
  unfold unquoteStep
  simp only
  rw [if_neg (by omega), if_neg (by omega), if_neg (by omega)]

/-- `unquoteBytes` copies the encoding of a scalar value that needs no escape. -/
theorem unquoteFrom_EncodeRune (r : Nat) (hv : r < 0xD800 ∨ (0xDFFF < r ∧ r < 0x110000))
    (h32 : 32 ≤ r) (h34 : r ≠ 34) (h92 : r ≠ 92) (more t : GoString)
    (ht : unquoteFrom 0 more = some t) :
    unquoteFrom 0 (utf8.EncodeRune r ++ more) = some (utf8.EncodeRune r ++ t) := by
  by_cases c1 : r ≤ 0x7F
  · have he : utf8.EncodeRune r = [toByte r] := by unfold utf8.EncodeRune; rw [if_pos c1]
    have hval : (toByte r).val = r := by rw [toByte_val_eq]; omega
    rw [he]
    exact unquoteFrom_step _ _ _ _ 1
      (unquoteStep_ascii _ _ (by omega) (by omega) (by omega) (by omega)) ht
  · by_cases c2 : r ≤ 0x7FF
    · have he : utf8.EncodeRune r = [toByte (0xC0 + r / 64), toByte (0x80 + r % 64)] := by
        unfold utf8.EncodeRune; rw [if_neg c1, if_pos c2]
      have hval : (toByte (0xC0 + r / 64)).val = 0xC0 + r / 64 := by rw [toByte_val_eq]; omega
      have hd := utf8.DecodeRune_two r more (by omega) c2
      rw [he]
      have hstep := unquoteStep_high (toByte (0xC0 + r / 64)) (toByte (0x80 + r % 64) :: more)
        (by omega)
      rw [hd] at hstep
      simp only at hstep
      rw [he] at hstep
      exact unquoteFrom_step _ _ _ _ 2 hstep
        ((unquoteFrom_skip [toByte (0x80 + r % 64)] more).trans ht)
    · by_cases c3 : r ≤ 0xFFFF
      · have he : utf8.EncodeRune r = [toByte (0xE0 + r / 4096), toByte (0x80 + r / 64 % 64),
            toByte (0x80 + r % 64)] := by
          unfold utf8.EncodeRune; rw [if_neg c1, if_neg c2, if_neg (by omega), if_pos c3]
        have hval : (toByte (0xE0 + r / 4096)).val = 0xE0 + r / 4096 := by
          rw [toByte_val_eq]; omega
        have hd := utf8.DecodeRune_three r more (by omega) c3 (by omega)
        rw [he]
        have hstep := unquoteStep_high (toByte (0xE0 + r / 4096))
          (toByte (0x80 + r / 64 % 64) :: toByte (0x80 + r % 64) :: more) (by omega)
        rw [hd] at hstep
        simp only at hstep
        rw [he] at hstep
        exact unquoteFrom_step _ _ _ _ 3 hstep
          ((unquoteFrom_skip [toByte (0x80 + r / 64 % 64), toByte (0x80 + r % 64)]
            more).trans ht)
      · have he : utf8.EncodeRune r = [toByte (0xF0 + r / 262144), toByte (0x80 + r / 4096 % 64),
            toByte (0x80 + r / 64 % 64), toByte (0x80 + r % 64)] := by
          unfold utf8.EncodeRune; rw [if_neg c1, if_neg c2, if_neg (by omega), if_neg c3]
        have hval : (toByte (0xF0 + r / 262144)).val = 0xF0 + r / 262144 := by
          rw [toByte_val_eq]; omega
        have hd := utf8.DecodeRune_four r more (by omega) (by omega)
        rw [he]
        have hstep := unquoteStep_high (toByte (0xF0 + r / 262144))
          (toByte (0x80 + r / 4096 % 64) :: toByte (0x80 + r / 64 % 64)
            :: toByte (0x80 + r % 64) :: more) (by omega)
        rw [hd] at hstep
        simp only at hstep
        rw [he] at hstep
        exact unquoteFrom_step _ _ _ _ 4 hstep
          ((unquoteFrom_skip [toByte (0x80 + r / 4096 % 64),
            toByte (0x80 + r / 64 % 64), toByte (0x80 + r % 64)] more).trans ht)

theorem unquoteFrom_jsonQuoteChar (c : Char) (more t : GoString)
    (ht : unquoteFrom 0 more = some t) :
    unquoteFrom 0 (jsonQuoteChar c ++ more) = some (utf8.EncodeRune c.toNat ++ t) := by
  unfold jsonQuoteChar
  split_ifs with h34 h92 h32
  · rw [h34]
    exact unquoteFrom_step _ _ _ _ 2 (unquoteStep_escape (toByte 34) (toByte 34) (by decide)
      (by decide) more) ((unquoteFrom_skip [toByte 34] more).trans ht)
  · rw [h92]
    exact unquoteFrom_step _ _ _ _ 2 (unquoteStep_escape (toByte 92) (toByte 92) (by decide)
      (by decide) more) ((unquoteFrom_skip [toByte 92] more).trans ht)
  · exact unquoteFrom_step _ _ _ _ 6 (unquoteStep_control c.toNat h32 more)
      ((unquoteFrom_skip [toByte 117, toByte 48, toByte 48, hexDigit (c.toNat / 16),
        hexDigit (c.toNat % 16)] more).trans ht)
  · exact unquoteFrom_EncodeRune c.toNat (utf8.char_scalar c) (by omega) h34 h92 more t ht

/-- `unquoteBytes` turns the body of a quoted text back into the UTF-8 bytes of
the text. -/
theorem unquote_jsonQuoteBody (d : List Char) :
    unquote (jsonQuoteBody d) = some (utf8Bytes d) := by
  unfold unquote
  induction d with
  | nil => rfl
  | cons c cs ih =>
    rw [jsonQuoteBody, utf8Bytes]
    exact unquoteFrom_jsonQuoteChar c _ _ ih

end json

namespace strconv

theorem parseDigits_append (xs ys : GoString) :
    ∀ a, parseDigits (xs ++ ys) a = (parseDigits xs a).bind (parseDigits ys) := by
  induction xs with
  | nil => intro a; rfl
  | cons x xs ih =>
    intro a
    rw [List.cons_append, parseDigits, parseDigits]
    split_ifs
    · exact ih _
    · rfl

/-- Any fuel above the number gives the same digits. -/
theorem digitsAux_fuel (f1 : Nat) : ∀ (f2 n : Nat) (acc : GoString), n < f1 → n < f2 →
    digitsAux f1 n acc = digitsAux f2 n acc := by
  induction f1 with
  | zero => intro f2 n acc h1; omega
  | succ f1 ih =>
    intro f2 n acc _ h2
    cases f2 with
    | zero => omega
    | succ f2 =>
      rw [digitsAux, digitsAux]
      split_ifs with hsmall
      · rfl
      · exact ih f2 (n / 10) _ (by omega) (by omega)

/-- The accumulator is only appended to. -/
theorem digitsAux_acc (fuel : Nat) : ∀ (n : Nat) (acc : GoString),
    digitsAux fuel n acc = digitsAux fuel n [] ++ acc := by
  induction fuel with
  | zero => intro n acc; rfl
  | succ fuel ih =>
    intro n acc
    rw [digitsAux, digitsAux]
    split_ifs with hsmall
    · rfl
    · rw [ih (n / 10) (toByte (48 + n % 10) :: acc), ih (n / 10) [toByte (48 + n % 10)],
        List.append_assoc]
      rfl

theorem formatNat_small (n : Nat) (h : n < 10) : formatNat n = [toByte (48 + n)] := by
  unfold formatNat
  rw [digitsAux, if_pos h]

theorem formatNat_step (n : Nat) (h : 10 ≤ n) :
    formatNat n = formatNat (n / 10) ++ [toByte (48 + n % 10)] := by
  unfold formatNat
  rw [digitsAux, if_neg (by omega), digitsAux_acc,
    digitsAux_fuel n (n / 10 + 1) (n / 10) [] (by omega) (by omega)]

end strconv

/-! ## Decimal numbers -/

namespace strconv

/-- The rendering of a natural number: a non-empty run of decimal digits, with a
leading `0` only for zero, that reads back as the number. -/
theorem formatNat_spec (n : Nat) :
    formatNat n ≠ [] ∧ (∀ c ∈ formatNat n, 48 ≤ c.val ∧ c.val ≤ 57)
      ∧ (∀ c cs, formatNat n = c :: cs → c.val = 48 → n = 0 ∧ cs = [])
      ∧ (∀ a, parseDigits (formatNat n) a = some (a * 10 ^ (formatNat n).length + n)) := by
  induction n using Nat.strong_induction_on with
  | _ n ih =>
    by_cases hsmall : n < 10
    · have hv : (toByte (48 + n)).val = 48 + n := by rw [toByte_val_eq]; omega
      rw [formatNat_small n hsmall]
      refine ⟨List.cons_ne_nil _ _, ?_, ?_, ?_⟩
      · intro c hc
        have hceq : c = toByte (48 + n) := List.mem_singleton.mp hc
        rw [hceq, hv]
        omega
      · intro c cs hcons hzero
        have hparts := List.cons.inj hcons
        rw [← hparts.1, hv] at hzero
        exact ⟨by omega, hparts.2.symm⟩
      · intro a
        rw [parseDigits, if_pos (by rw [hv]; omega), parseDigits, hv, List.length_singleton,
          pow_one]
        congr 1
        omega
    · have hv : (toByte (48 + n % 10)).val = 48 + n % 10 := by rw [toByte_val_eq]; omega
      obtain ⟨hne, hdig, hz, hval⟩ := ih (n / 10) (by omega)
      rw [formatNat_step n (by omega)]
      refine ⟨?_, ?_, ?_, ?_⟩
      · intro hnil
        exact hne (List.append_eq_nil.mp hnil).1
      · intro c hc
        cases List.mem_append.mp hc with
        | inl hleft => exact hdig c hleft
        | inr hright =>
          have hceq : c = toByte (48 + n % 10) := List.mem_singleton.mp hright
          rw [hceq, hv]
          omega
      · intro c cs hcons hzero
        cases hq : formatNat (n / 10) with
        | nil => exact absurd hq hne
        | cons q qs =>
          rw [hq, List.cons_append] at hcons
          have hhead : q = c := (List.cons.inj hcons).1
          have hq0 := (hz q qs hq (by rw [hhead]; exact hzero)).1
          omega
      · intro a
        have hlast : parseDigits [toByte (48 + n % 10)] (a * 10 ^ (formatNat (n / 10)).length + n / 10)
            = some ((a * 10 ^ (formatNat (n / 10)).length + n / 10) * 10 + n % 10) := by
          rw [parseDigits, if_pos (by rw [hv]; omega), parseDigits, hv]
          congr 1
          omega
        rw [parseDigits_append, hval a, Option.bind, hlast, List.length_append,
          List.length_singleton, pow_succ]
        congr 1
        have hdm := Nat.div_add_mod n 10
        nlinarith [hdm]

/-- `ParseInt` reads back what `Itoa` writes, for every 64-bit value. -/
theorem ParseInt_Itoa (n : Int) (hlo : -(2 : Int) ^ 63 ≤ n) (hhi : n < (2 : Int) ^ 63) :
    ParseInt (Itoa n) = some n := by
  unfold Itoa
  by_cases hneg : n < 0
  · rw [if_pos hneg]
    obtain ⟨hne, hdig, _, hval⟩ := formatNat_spec (-n).toNat
    have hv := hval 0
    rw [Nat.zero_mul, Nat.zero_add] at hv
    cases hf : formatNat (-n).toNat with
    | nil => exact absurd hf hne
    | cons d ds =>
      rw [hf] at hv
      unfold ParseInt
      simp only
      rw [if_pos (Or.inl (by decide))]
      simp only [hv]
      have h45 : ((toByte 45).val = 45) = True := by simp; decide
      simp only [h45, if_true]
      have hle : (-n).toNat ≤ 2 ^ 63 := by omega
      rw [if_pos hle]
      congr 1
      omega
  · rw [if_neg hneg]
    obtain ⟨hne, hdig, _, hval⟩ := formatNat_spec n.toNat
    have hv := hval 0
    rw [Nat.zero_mul, Nat.zero_add] at hv
    cases hf : formatNat n.toNat with
    | nil => exact absurd hf hne
    | cons d ds =>
      rw [hf] at hv hdig
      have hd := hdig d (List.mem_cons_self _ _)
      unfold ParseInt
      simp only
      rw [if_neg (by omega)]
      simp only [hv]
      have h45 : (d.val = 45) = False := by simp; omega
      simp only [h45, if_false]
      have hlt : n.toNat < 2 ^ 63 := by omega
      rw [if_pos hlt]
      congr 1
      omega

end strconv

namespace json

theorem takeDigits_append (ds : GoString) (hds : ∀ c ∈ ds, 48 ≤ c.val ∧ c.val ≤ 57)
    (c : Byte) (cs : GoString) (hc : isDigit c = false) :
    takeDigits (ds ++ c :: cs) = (ds, c :: cs) := by
  induction ds with
  | nil => rw [List.nil_append, takeDigits, hc]; rfl
  | cons d ds ih =>
    have hd := hds d (List.mem_cons_self _ _)
    have ih1 := ih (fun x hx => hds x (List.mem_cons_of_mem _ hx))
    have : isDigit d = true := by
      simp only [isDigit, Bool.and_eq_true, decide_eq_true_eq]; exact hd
    rw [List.cons_append, takeDigits, this, ih1]
    rfl

/-- The scanner reads the rendering of an integer that is followed by a comma
as one number literal and stops at the comma. -/
theorem scanNumber_Itoa (n : Int) (cs : GoString) :
    scanNumber (strconv.Itoa n ++ toByte 44 :: cs) = some (strconv.Itoa n, toByte 44 :: cs) := by
  have hcomma : isDigit (toByte 44) = false := by decide
  have key : ∀ m : Nat, scanIntPart (strconv.formatNat m ++ toByte 44 :: cs)
      = some (strconv.formatNat m, toByte 44 :: cs) := by
    intro m
    obtain ⟨hne, hdig, hz, _⟩ := strconv.formatNat_spec m
    cases hf : strconv.formatNat m with
    | nil => exact absurd hf hne
    | cons d ds =>
      rw [hf] at hdig
      have hd := hdig d (List.mem_cons_self _ _)
      rw [List.cons_append, scanIntPart]
      by_cases h0 : d.val = 48
      · have := (hz d ds hf h0).2
        rw [if_pos h0, this]
        rfl
      · have hdd : isDigit d = true := by
          simp only [isDigit, Bool.and_eq_true, decide_eq_true_eq]; exact hd
        rw [if_neg h0, if_pos hdd,
          takeDigits_append ds (fun x hx => hdig x (List.mem_cons_of_mem _ hx)) _ cs hcomma]
  have hfrac : scanFrac (toByte 44 :: cs) = some ([], toByte 44 :: cs) := by
    rw [scanFrac, if_neg (by decide)]
  have hexp : scanExp (toByte 44 :: cs) = some ([], toByte 44 :: cs) := by
    unfold scanExp
    simp only
    rw [if_neg (by decide)]
  unfold strconv.Itoa
  by_cases hneg : n < 0
  · rw [if_pos hneg]
    unfold scanNumber
    simp only [List.cons_append]
    rw [if_pos (by decide)]
    simp only [key, hfrac, hexp, List.append_nil, List.singleton_append]
  · rw [if_neg hneg]
    obtain ⟨hne, hdig, _, _⟩ := strconv.formatNat_spec n.toNat
    have hk := key n.toNat
    cases hf : strconv.formatNat n.toNat with
    | nil => exact absurd hf hne
    | cons d ds =>
      rw [hf] at hdig hk
      have hd := hdig d (List.mem_cons_self _ _)
      unfold scanNumber
      simp only [List.cons_append]
      rw [if_neg (by omega)]
      rw [List.cons_append] at hk
      simp only [hk, hfrac, hexp, List.append_nil, List.nil_append]

/-- The first byte of a rendered integer is a minus sign or a digit. -/
theorem Itoa_head (n : Int) :
    ∃ c cs, strconv.Itoa n = c :: cs ∧ (c.val = 45 ∨ (48 ≤ c.val ∧ c.val ≤ 57)) := by
  unfold strconv.Itoa
  by_cases hneg : n < 0
  · rw [if_pos hneg]
    exact ⟨_, _, rfl, Or.inl (by decide)⟩
  · rw [if_neg hneg]
    obtain ⟨hne, hdig, _, _⟩ := strconv.formatNat_spec n.toNat
    cases hf : strconv.formatNat n.toNat with
    | nil => exact absurd hf hne
    | cons d ds =>
      rw [hf] at hdig
      exact ⟨d, ds, rfl, Or.inr (hdig d (List.mem_cons_self _ _))⟩

end json

/-! ## The well-formed secret -/

namespace json

theorem skipSpace_cons (c : Byte) (cs : GoString) (h : isSpace c = false) :
    skipSpace (c :: cs) = c :: cs := by
  rw [skipSpace, h]
  rfl

/-- A quoted text is read as the JSON string it denotes. -/
theorem parseValue_string (f depth : Nat) (d : List Char) (rest : GoString) :
    parseValue (f + 1) depth (toByte 34 :: (jsonQuoteBody d ++ toByte 34 :: rest))
      = some (Value.string (utf8Bytes d), rest) := by
  rw [parseValue]
  rw [if_neg (by decide), if_neg (by decide), if_pos (by decide)]
  simp only [scanString, scanString_jsonQuoteBody, unquote_jsonQuoteBody]

/-- A rendered integer followed by a comma is read as a number literal. -/
theorem parseValue_number (f depth : Nat) (n : Int) (rest : GoString) :
    parseValue (f + 1) depth (strconv.Itoa n ++ toByte 44 :: rest)
      = some (Value.number (strconv.Itoa n), toByte 44 :: rest) := by
  obtain ⟨c, cs, hc, hhead⟩ := Itoa_head n
  have hs := scanNumber_Itoa n rest
  rw [hc] at hs ⊢
  rw [List.cons_append] at hs ⊢
  rw [parseValue]
  have hdig : (c.val = 45 ∨ isDigit c = true) := by
    rcases hhead with h | h
    · exact Or.inl h
    · right; simp only [isDigit, Bool.and_eq_true, decide_eq_true_eq]; exact h
  rw [if_neg (by omega), if_neg (by omega), if_neg (by omega), if_pos hdig, hs]

/-- One member of an object that is followed by a comma and a further key. -/
theorem parseMembers_cons (f depth : Nat) (key : List Char) (vr tail : GoString) (v : Value)
    (hsp : skipSpace vr = vr)
    (hv : parseValue f depth vr = some (v, toByte 44 :: toByte 34 :: tail)) :
    parseMembers (f + 1) depth (toByte 34 :: (jsonQuoteBody key ++ toByte 34 :: toByte 58 :: vr))
      = match parseMembers f depth (toByte 34 :: tail) with
        | some (ms, r5) => some ((utf8Bytes key, v) :: ms, r5)
        | none => none := by
  rw [parseMembers]
  simp only [scanString, scanString_jsonQuoteBody, unquote_jsonQuoteBody]
  rw [if_neg (by decide), skipSpace_cons _ _ (by decide)]
  simp only
  rw [if_neg (by decide), hsp, hv]
  simp only
  rw [skipSpace_cons _ _ (by decide)]
  simp only
  rw [if_neg (by decide), if_pos (by decide), skipSpace_cons _ _ (by decide)]

/-- The last member of an object, followed by the closing brace. -/
theorem parseMembers_last (f depth : Nat) (key : List Char) (vr tail : GoString) (v : Value)
    (hsp : skipSpace vr = vr)
    (hv : parseValue f depth vr = some (v, toByte 125 :: tail)) :
    parseMembers (f + 1) depth (toByte 34 :: (jsonQuoteBody key ++ toByte 34 :: toByte 58 :: vr))
      = some ([(utf8Bytes key, v)], tail) := by
  rw [parseMembers]
  simp only [scanString, scanString_jsonQuoteBody, unquote_jsonQuoteBody]
  rw [if_neg (by decide), skipSpace_cons _ _ (by decide)]
  simp only
  rw [if_neg (by decide), hsp, hv]
  simp only
  rw [skipSpace_cons _ _ (by decide)]
  simp only
  rw [if_pos (by decide)]

theorem skipSpace_Itoa (n : Int) (rest : GoString) :
    skipSpace (strconv.Itoa n ++ rest) = strconv.Itoa n ++ rest := by
  obtain ⟨c, cs, hc, hhead⟩ := Itoa_head n
  rw [hc, List.cons_append]
  apply skipSpace_cons
  simp only [isSpace, Bool.or_eq_false_iff, decide_eq_false_iff_not]
  omega

/-- The text `secretJSON ...`, member by member. -/
theorem secretJSON_eq (d : String) (n : Int) (u p h s : String) :
    secretJSON d n u p h s
      = toByte 123 :: toByte 34 :: (jsonQuoteBody "dbname".toList ++ toByte 34 :: toByte 58
        :: toByte 34 :: (jsonQuoteBody d.toList ++ toByte 34 :: toByte 44
        :: toByte 34 :: (jsonQuoteBody "port".toList ++ toByte 34 :: toByte 58
        :: (strconv.Itoa n ++ toByte 44
        :: toByte 34 :: (jsonQuoteBody "username".toList ++ toByte 34 :: toByte 58
        :: toByte 34 :: (jsonQuoteBody u.toList ++ toByte 34 :: toByte 44
        :: toByte 34 :: (jsonQuoteBody "password".toList ++ toByte 34 :: toByte 58
        :: toByte 34 :: (jsonQuoteBody p.toList ++ toByte 34 :: toByte 44
        :: toByte 34 :: (jsonQuoteBody "host".toList ++ toByte 34 :: toByte 58
        :: toByte 34 :: (jsonQuoteBody h.toList ++ toByte 34 :: toByte 44
        :: toByte 34 :: (jsonQuoteBody "dbsslmode".toList ++ toByte 34 :: toByte 58
        :: toByte 34 :: (jsonQuoteBody s.toList ++ toByte 34 :: toByte 125
        :: [])))))))))))) := by
  have k1 : str "\x7b\"dbname\":"
      = toByte 123 :: toByte 34 :: (jsonQuoteBody "dbname".toList ++ [toByte 34, toByte 58]) := by
    decide
  have k2 : str ",\"port\":"
      = toByte 44 :: toByte 34 :: (jsonQuoteBody "port".toList ++ [toByte 34, toByte 58]) := by
    decide
  have k3 : str ",\"username\":"
      = toByte 44 :: toByte 34 :: (jsonQuoteBody "username".toList ++ [toByte 34, toByte 58]) := by
    decide
  have k4 : str ",\"password\":"
      = toByte 44 :: toByte 34 :: (jsonQuoteBody "password".toList ++ [toByte 34, toByte 58]) := by
    decide
  have k5 : str ",\"host\":"
      = toByte 44 :: toByte 34 :: (jsonQuoteBody "host".toList ++ [toByte 34, toByte 58]) := by
    decide
  have k6 : str ",\"dbsslmode\":"
      = toByte 44 :: toByte 34 :: (jsonQuoteBody "dbsslmode".toList ++ [toByte 34, toByte 58]) := by
    decide
  have k7 : str "\x7d" = [toByte 125] := by decide
  unfold secretJSON jsonQuote
  rw [k1, k2, k3, k4, k5, k6, k7]
  simp only [List.cons_append, List.append_assoc, List.nil_append, List.singleton_append]

/-- The object `secretJSON ...` is valid JSON and denotes its six members. -/
theorem parse_secretJSON (d : String) (n : Int) (u p h s : String) :
    parse (secretJSON d n u p h s)
      = some (Value.object
          [(str "dbname", Value.string (utf8Bytes d.toList)),
            (str "port", Value.number (strconv.Itoa n)),
            (str "username", Value.string (utf8Bytes u.toList)),
            (str "password", Value.string (utf8Bytes p.toList)),
            (str "host", Value.string (utf8Bytes h.toList)),
            (str "dbsslmode", Value.string (utf8Bytes s.toList))]) := by
  have hlen : ∃ f, (secretJSON d n u p h s).length + 1 = f + 8 := by
    refine ⟨(secretJSON d n u p h s).length - 7, ?_⟩
    have : 7 ≤ (secretJSON d n u p h s).length := by
      unfold secretJSON
      simp only [List.length_append]
      have : (str "\x7b\"dbname\":").length = 10 := by decide
      omega
    omega
  obtain ⟨f, hf⟩ := hlen
  unfold parse
  rw [hf, secretJSON_eq, skipSpace_cons _ _ (by decide), parseValue]
  rw [if_pos (by decide), if_neg (by decide), skipSpace_cons _ _ (by decide)]
  simp only
  rw [if_neg (by decide)]
  rw [parseMembers_cons (f + 6) 1 _ _ _ _ (skipSpace_cons _ _ (by decide))
    (parseValue_string (f + 5) 1 d.toList _)]
  rw [parseMembers_cons (f + 5) 1 _ _ _ _ (skipSpace_Itoa n _)
    (parseValue_number (f + 4) 1 n _)]
  rw [parseMembers_cons (f + 4) 1 _ _ _ _ (skipSpace_cons _ _ (by decide))
    (parseValue_string (f + 3) 1 u.toList _)]
  rw [parseMembers_cons (f + 3) 1 _ _ _ _ (skipSpace_cons _ _ (by decide))
    (parseValue_string (f + 2) 1 p.toList _)]
  rw [parseMembers_cons (f + 2) 1 _ _ _ _ (skipSpace_cons _ _ (by decide))
    (parseValue_string (f + 1) 1 h.toList _)]
  rw [parseMembers_last (f + 1) 1 _ _ _ _ (skipSpace_cons _ _ (by decide))
    (parseValue_string f 1 s.toList _)]
  simp only [skipSpace, if_true]
  rfl

/-- `json.Unmarshal` on the object `secretJSON ...` fills the six fields and
reports no error, for every port that fits a 64-bit `int`. -/
theorem Unmarshal_secretJSON (d : String) (n : Int) (u p h s : String)
    (hlo : -(2 : Int) ^ 63 ≤ n) (hhi : n < (2 : Int) ^ 63) :
    Unmarshal (secretJSON d n u p h s) SecretDetails.zero
      = (⟨utf8Bytes d.toList, n, utf8Bytes u.toList, utf8Bytes p.toList, utf8Bytes h.toList,
          utf8Bytes s.toList⟩, none) := by
  have f1 : findField (str "dbname") = some Field.Dbname := by decide
  have f2 : findField (str "port") = some Field.Port := by decide
  have f3 : findField (str "username") = some Field.User := by decide
  have f4 : findField (str "password") = some Field.Password := by decide
  have f5 : findField (str "host") = some Field.Host := by decide
  have f6 : findField (str "dbsslmode") = some Field.DbSslMode := by decide
  unfold Unmarshal
  rw [parse_secretJSON]
  simp only [store, storeMembers, f1, f2, f3, f4, f5, f6, setField, storeString, storeInt,
    strconv.ParseInt_Itoa n hlo hhi, saveError, SecretDetails.zero]

end json

/-! ## `GetSecret` on the well-formed secret -/

/-- C2, refuted on a sample world: with `port` equal to 2^63, which is an
integer but not a value of a 64-bit `int`, the text is the JSON object of the
claim, `GetSecret` returns a nil error, and `Port` is left at zero. -/
theorem GetSecret_wellformed_text_counterexample :
    secretJSON "d" 9223372036854775808 "u" "p" "h" "require"
        = str ("\x7b\"dbname\":\"d\",\"port\":9223372036854775808,\"username\":\"u\","
            ++ "\"password\":\"p\",\"host\":\"h\",\"dbsslmode\":\"require\"\x7d")
      ∧ (GetSecret (sampleWorld (Except.ok
          ⟨some (secretJSON "d" 9223372036854775808 "u" "p" "h" "require"), []⟩))
          (str "DB_SECRET")).err = none
      ∧ (GetSecret (sampleWorld (Except.ok
          ⟨some (secretJSON "d" 9223372036854775808 "u" "p" "h" "require"), []⟩))
          (str "DB_SECRET")).details.Port = 0
      ∧ (GetSecret (sampleWorld (Except.ok
          ⟨some (secretJSON "d" 9223372036854775808 "u" "p" "h" "require"), []⟩))
          (str "DB_SECRET")).details.Port ≠ 9223372036854775808 := by
  decide

/-- C2, amended: for all texts `d`, `u`, `p`, `h`, `s` and every integer `n`
with `-2^63 ≤ n < 2^63`, when the remote call succeeds with the text payload
`{"dbname":d,"port":n,"username":u,"password":p,"host":h,"dbsslmode":s}`,
`GetSecret` returns a nil error and the record with exactly these six values. -/
theorem GetSecret_wellformed_text (w : World) (v : GoString) (sess : session.Session)
    (out : secretsmanager.GetSecretValueOutput) (d : String) (n : Int) (u p h s : String)
    (hs : w.NewSession { Region := some (w.Getenv (str "region")) } = Except.ok sess)
    (hr : w.GetSecretValue (secretsmanager.New sess)
        { SecretId := some (w.Getenv v), VersionId := none,
          VersionStage := some (str "AWSCURRENT") } = Except.ok out)
    (ht : out.SecretString = some (secretJSON d n u p h s))
    (hlo : -(2 : Int) ^ 63 ≤ n) (hhi : n < (2 : Int) ^ 63) :
    (GetSecret w v).err = none
      ∧ (GetSecret w v).details = ⟨str d, n, str u, str p, str h, str s⟩ := by
  simp only [GetSecret_unfold, hs, hr, ht, json.Unmarshal_secretJSON d n u p h s hlo hhi]
  exact ⟨by trivial, rfl⟩

/-- C2, amended, on the secret of the specification: `d`, 5432, `u`, `p`, `h`,
`require`. -/
theorem GetSecret_wellformed_text_witness :
    secretJSON "d" 5432 "u" "p" "h" "require"
        = str ("\x7b\"dbname\":\"d\",\"port\":5432,\"username\":\"u\","
            ++ "\"password\":\"p\",\"host\":\"h\",\"dbsslmode\":\"require\"\x7d")
      ∧ (GetSecret (sampleWorld (Except.ok
          ⟨some (secretJSON "d" 5432 "u" "p" "h" "require"), []⟩)) (str "DB_SECRET")).err = none
      ∧ (GetSecret (sampleWorld (Except.ok
          ⟨some (secretJSON "d" 5432 "u" "p" "h" "require"), []⟩)) (str "DB_SECRET")).details
        = ⟨str "d", 5432, str "u", str "p", str "h", str "require"⟩ :=
  ⟨by decide,
    GetSecret_wellformed_text
      (sampleWorld (Except.ok ⟨some (secretJSON "d" 5432 "u" "p" "h" "require"), []⟩))
      (str "DB_SECRET") sampleSession
      ⟨some (secretJSON "d" 5432 "u" "p" "h" "require"), []⟩ "d" 5432 "u" "p" "h" "require"
      rfl rfl rfl (by decide) (by decide)⟩

/-! ## The recursion bound of the JSON parser -/

namespace json

theorem skipSpace_length (s : GoString) : (skipSpace s).length ≤ s.length := by
  induction s with
  | nil => exact Nat.le_refl _
  | cons c cs ih =>
    rw [skipSpace]
    split_ifs
    · exact Nat.le_succ_of_le ih
    · exact Nat.le_refl _

theorem keep_eq_some (c : Byte) (x : Option (GoString × GoString)) (raw rest : GoString)
    (h : keep c x = some (raw, rest)) : ∃ raw1, x = some (raw1, rest) := by
  cases x with
  | none => simp [keep] at h
  | some p =>
    obtain ⟨a, b⟩ := p
    simp only [keep, Option.some.injEq, Prod.mk.injEq] at h
    exact ⟨a, by rw [h.2]⟩

theorem scanStringFrom_length (s : GoString) : ∀ (st : StringState) (raw rest : GoString),
    scanStringFrom st s = some (raw, rest) → rest.length < s.length := by
  induction s with
  | nil => intro st raw rest h; cases st <;> simp [scanStringFrom] at h
  | cons c cs ih =>
    intro st raw rest h
    cases st <;> rw [scanStringFrom] at h <;> split_ifs at h
    all_goals first
      | (simp only [Option.some.injEq, Prod.mk.injEq] at h
         rw [← h.2]; exact Nat.lt_succ_self _)
      | (obtain ⟨raw1, h1⟩ := keep_eq_some _ _ _ _ h
         exact Nat.lt_succ_of_lt (ih _ _ _ h1))

theorem takeDigits_length (s : GoString) : (takeDigits s).2.length ≤ s.length := by
  induction s with
  | nil => exact Nat.le_refl _
  | cons c cs ih =>
    rw [takeDigits]
    split_ifs
    · exact Nat.le_succ_of_le ih
    · exact Nat.le_refl _

theorem scanIntPart_length (s lit rest : GoString) (h : scanIntPart s = some (lit, rest)) :
    rest.length < s.length := by
  cases s with
  | nil => simp [scanIntPart] at h
  | cons c cs =>
    rw [scanIntPart] at h
    split_ifs at h
    · simp only [Option.some.injEq, Prod.mk.injEq] at h
      rw [← h.2]; exact Nat.lt_succ_self _
    · simp only [Option.some.injEq, Prod.mk.injEq] at h
      rw [← h.2]; exact Nat.lt_succ_of_le (takeDigits_length cs)

theorem scanFrac_length (s lit rest : GoString) (h : scanFrac s = some (lit, rest)) :
    rest.length ≤ s.length := by
  cases s with
  | nil =>
    simp only [scanFrac, Option.some.injEq, Prod.mk.injEq] at h
    rw [← h.2]
  | cons c cs =>
    rw [scanFrac] at h
    split_ifs at h
    · simp only [Option.some.injEq, Prod.mk.injEq] at h
      rw [← h.2]; exact Nat.le_succ_of_le (takeDigits_length cs)
    · simp only [Option.some.injEq, Prod.mk.injEq] at h
      rw [← h.2]

theorem scanExp_length (s lit rest : GoString) (h : scanExp s = some (lit, rest)) :
    rest.length ≤ s.length := by
  cases s with
  | nil =>
    simp only [scanExp, Option.some.injEq, Prod.mk.injEq] at h
    rw [← h.2]
  | cons c cs =>
    unfold scanExp at h
    simp only at h
    by_cases he : c.val = 101 ∨ c.val = 69
    · rw [if_pos he] at h
      cases cs with
      | nil => exact absurd h (by simp)
      | cons sgn cs1 =>
        simp only at h
        have t1 := takeDigits_length cs1
        have t2 := takeDigits_length (sgn :: cs1)
        simp only [List.length_cons] at t2 ⊢
        split_ifs at h
        · simp only [Option.some.injEq, Prod.mk.injEq] at h
          rw [← h.2]; omega
        · simp only [Option.some.injEq, Prod.mk.injEq] at h
          rw [← h.2]; omega
    · rw [if_neg he] at h
      simp only [Option.some.injEq, Prod.mk.injEq] at h
      rw [← h.2]

theorem scanNumber_length (s lit rest : GoString) (h : scanNumber s = some (lit, rest)) :
    rest.length < s.length := by
  have key : ∀ (sg body : GoString), body.length ≤ s.length →
      (match scanIntPart body with
        | none => none
        | some (ip, r1) =>
          match scanFrac r1 with
          | none => none
          | some (fp, r2) =>
            match scanExp r2 with
            | none => none
            | some (ep, r3) => some (sg ++ ip ++ fp ++ ep, r3)) = some (lit, rest) →
      rest.length < s.length := by
    intro sg body hb hm
    split at hm
    · exact absurd hm (by simp)
    · rename_i ip r1 h1
      split at hm
      · exact absurd hm (by simp)
      · rename_i fp r2 h2
        split at hm
        · exact absurd hm (by simp)
        · rename_i ep r3 h3
          simp only [Option.some.injEq, Prod.mk.injEq] at hm
          rw [← hm.2]
          have a1 := scanIntPart_length _ _ _ h1
          have a2 := scanFrac_length _ _ _ h2
          have a3 := scanExp_length _ _ _ h3
          omega
  unfold scanNumber at h
  cases s with
  | nil => exact key [] [] (Nat.le_refl _) h
  | cons c cs =>
    simp only at h
    by_cases hm : c.val = 45
    · simp only [if_pos hm] at h
      exact key [c] cs (Nat.le_succ _) h
    · simp only [if_neg hm] at h
      exact key [] (c :: cs) (Nat.le_refl _) h

theorem dropLit_length (lit : GoString) : ∀ (s rest : GoString),
    dropLit lit s = some rest → rest.length ≤ s.length := by
  induction lit with
  | nil =>
    intro s rest h
    simp only [dropLit, Option.some.injEq] at h
    rw [h]
  | cons l ls ih =>
    intro s rest h
    cases s with
    | nil => simp [dropLit] at h
    | cons c cs =>
      rw [dropLit] at h
      split_ifs at h
      exact Nat.le_succ_of_le (ih cs rest h)

theorem map_eq_some_length (lit cs r : GoString) (v w : Value)
    (h : (dropLit lit cs).map (fun x => (w, x)) = some (v, r)) : r.length ≤ cs.length := by
  cases hd : dropLit lit cs with
  | none => rw [hd] at h; exact absurd h (by simp)
  | some x =>
    rw [hd] at h
    simp only [Option.map_some', Option.some.injEq, Prod.mk.injEq] at h
    rw [← h.2]
    exact dropLit_length lit cs x hd

/-- Fuel: a successful parse consumes input, and any fuel that is at least the
number of bytes consumed gives the same result. -/
theorem parse_fuel (f1 : Nat) :
    (∀ d s v r, parseValue f1 d s = some (v, r) →
        r.length < s.length ∧ ∀ f, s.length - r.length ≤ f → parseValue f d s = some (v, r))
    ∧ (∀ d s ms r, parseMembers f1 d s = some (ms, r) →
        r.length < s.length ∧ ∀ f, s.length - r.length ≤ f → parseMembers f d s = some (ms, r))
    ∧ (∀ d s vs r, parseElements f1 d s = some (vs, r) →
        r.length < s.length
          ∧ ∀ f, s.length - r.length ≤ f → parseElements f d s = some (vs, r)) := by
  induction f1 with
  | zero =>
    refine ⟨?_, ?_, ?_⟩
    · intro d s v r h; rw [parseValue] at h; exact absurd h (by simp)
    · intro d s v r h; rw [parseMembers] at h; exact absurd h (by simp)
    · intro d s v r h; rw [parseElements] at h; exact absurd h (by simp)
  | succ f1 ih =>
    obtain ⟨ihV, ihM, ihE⟩ := ih
    refine ⟨?_, ?_, ?_⟩
    · intro d s v r h
      cases s with
      | nil => rw [parseValue] at h; exact absurd h (by simp)
      | cons c cs =>
        rw [parseValue] at h
        have hsk := skipSpace_length cs
        by_cases h123 : c.val = 123
        · rw [if_pos h123] at h
          by_cases hd : maxNestingDepth ≤ d
          · rw [if_pos hd] at h; exact absurd h (by simp)
          · rw [if_neg hd] at h
            cases hss : skipSpace cs with
            | nil => rw [hss] at h; exact absurd h (by simp)
            | cons c1 cs1 =>
              rw [hss] at h hsk
              simp only at h
              simp only [List.length_cons] at hsk
              by_cases h125 : c1.val = 125
              · rw [if_pos h125] at h
                simp only [Option.some.injEq, Prod.mk.injEq] at h
                rw [← h.1, ← h.2]
                refine ⟨by simp only [List.length_cons]; omega, ?_⟩
                intro f hf
                cases f with
                | zero => simp only [List.length_cons] at hf; omega
                | succ g => rw [parseValue, if_pos h123, if_neg hd, hss]; simp only; rw [if_pos h125]
              · rw [if_neg h125] at h
                cases hm : parseMembers f1 (d + 1) (c1 :: cs1) with
                | none => rw [hm] at h; exact absurd h (by simp)
                | some pr =>
                  obtain ⟨ms, r1⟩ := pr
                  rw [hm] at h
                  simp only [Option.some.injEq, Prod.mk.injEq] at h
                  obtain ⟨hlen, hfuel⟩ := ihM _ _ _ _ hm
                  simp only [List.length_cons] at hlen hfuel
                  rw [← h.1, ← h.2]
                  refine ⟨by simp only [List.length_cons]; omega, ?_⟩
                  intro f hf
                  simp only [List.length_cons] at hf
                  cases f with
                  | zero => omega
                  | succ g =>
                    rw [parseValue, if_pos h123, if_neg hd, hss]
                    simp only
                    rw [if_neg h125, hfuel g (by omega)]
        · rw [if_neg h123] at h
          by_cases h91 : c.val = 91
          · rw [if_pos h91] at h
            by_cases hd : maxNestingDepth ≤ d
            · rw [if_pos hd] at h; exact absurd h (by simp)
            · rw [if_neg hd] at h
              cases hss : skipSpace cs with
              | nil => rw [hss] at h; exact absurd h (by simp)
              | cons c1 cs1 =>
                rw [hss] at h hsk
                simp only at h
                simp only [List.length_cons] at hsk
                by_cases h93 : c1.val = 93
                · rw [if_pos h93] at h
                  simp only [Option.some.injEq, Prod.mk.injEq] at h
                  rw [← h.1, ← h.2]
                  refine ⟨by simp only [List.length_cons]; omega, ?_⟩
                  intro f hf
                  cases f with
                  | zero => simp only [List.length_cons] at hf; omega
                  | succ g =>
                    rw [parseValue, if_neg h123, if_pos h91, if_neg hd, hss]
                    simp only
                    rw [if_pos h93]
                · rw [if_neg h93] at h
                  cases hm : parseElements f1 (d + 1) (c1 :: cs1) with
                  | none => rw [hm] at h; exact absurd h (by simp)
                  | some pr =>
                    obtain ⟨vs, r1⟩ := pr
                    rw [hm] at h
                    simp only [Option.some.injEq, Prod.mk.injEq] at h
                    obtain ⟨hlen, hfuel⟩ := ihE _ _ _ _ hm
                    simp only [List.length_cons] at hlen hfuel
                    rw [← h.1, ← h.2]
                    refine ⟨by simp only [List.length_cons]; omega, ?_⟩
                    intro f hf
                    simp only [List.length_cons] at hf
                    cases f with
                    | zero => omega
                    | succ g =>
                      rw [parseValue, if_neg h123, if_pos h91, if_neg hd, hss]
                      simp only
                      rw [if_neg h93, hfuel g (by omega)]
          · rw [if_neg h91] at h
            have leaf : r.length < (c :: cs).length →
                r.length < (c :: cs).length
                  ∧ ∀ f, (c :: cs).length - r.length ≤ f →
                    parseValue f d (c :: cs) = some (v, r) := by
              intro hl
              refine ⟨hl, ?_⟩
              intro f hf
              cases f with
              | zero => omega
              | succ g => rw [parseValue, if_neg h123, if_neg h91]; exact h
            apply leaf
            simp only [List.length_cons]
            split_ifs at h
            · split at h
              · exact absurd h (by simp)
              · rename_i raw rest hsc
                split at h
                · simp only [Option.some.injEq, Prod.mk.injEq] at h
                  rw [← h.2]
                  exact Nat.lt_succ_of_lt (scanStringFrom_length _ _ _ _ hsc)
                · exact absurd h (by simp)
            · split at h
              · rename_i lit rest hsc
                simp only [Option.some.injEq, Prod.mk.injEq] at h
                rw [← h.2]
                have := scanNumber_length _ _ _ hsc
                simp only [List.length_cons] at this
                exact this
              · exact absurd h (by simp)
            · exact Nat.lt_succ_of_le (map_eq_some_length _ _ _ _ _ h)
            · exact Nat.lt_succ_of_le (map_eq_some_length _ _ _ _ _ h)
            · exact Nat.lt_succ_of_le (map_eq_some_length _ _ _ _ _ h)
    · intro d s ms r h
      cases s with
      | nil => rw [parseMembers] at h; exact absurd h (by simp)
      | cons q cs =>
        rw [parseMembers] at h
        by_cases hq : q.val ≠ 34
        · rw [if_pos hq] at h; exact absurd h (by simp)
        · rw [if_neg hq] at h
          cases hsc : scanString cs with
          | none => rw [hsc] at h; exact absurd h (by simp)
          | some p1 =>
            obtain ⟨raw, r1⟩ := p1
            rw [hsc] at h
            simp only at h
            have l1 : r1.length < cs.length := scanStringFrom_length _ _ _ _ hsc
            cases hu : unquote raw with
            | none => rw [hu] at h; exact absurd h (by simp)
            | some key =>
              rw [hu] at h
              simp only at h
              have l2 := skipSpace_length r1
              cases hs1 : skipSpace r1 with
              | nil => rw [hs1] at h; exact absurd h (by simp)
              | cons colon r2 =>
                rw [hs1] at h l2
                simp only at h
                simp only [List.length_cons] at l2
                by_cases hcolon : colon.val ≠ 58
                · rw [if_pos hcolon] at h; exact absurd h (by simp)
                · rw [if_neg hcolon] at h
                  have l3 := skipSpace_length r2
                  cases hv : parseValue f1 d (skipSpace r2) with
                  | none => rw [hv] at h; exact absurd h (by simp)
                  | some p3 =>
                    obtain ⟨v, r3⟩ := p3
                    rw [hv] at h
                    simp only at h
                    obtain ⟨l4, fuelV⟩ := ihV _ _ _ _ hv
                    have l5 := skipSpace_length r3
                    cases hs3 : skipSpace r3 with
                    | nil => rw [hs3] at h; exact absurd h (by simp)
                    | cons sep r4 =>
                      rw [hs3] at h l5
                      simp only at h
                      simp only [List.length_cons] at l5
                      by_cases h125 : sep.val = 125
                      · rw [if_pos h125] at h
                        simp only [Option.some.injEq, Prod.mk.injEq] at h
                        rw [← h.1, ← h.2]
                        refine ⟨by simp only [List.length_cons]; omega, ?_⟩
                        intro f hf
                        simp only [List.length_cons] at hf
                        cases f with
                        | zero => omega
                        | succ g =>
                          rw [parseMembers, if_neg hq, hsc]
                          simp only
                          rw [hu]
                          simp only
                          rw [hs1]
                          simp only
                          rw [if_neg hcolon, fuelV g (by omega)]
                          simp only
                          rw [hs3]
                          simp only
                          rw [if_pos h125]
                      · rw [if_neg h125] at h
                        by_cases h44 : sep.val = 44
                        · rw [if_pos h44] at h
                          have l6 := skipSpace_length r4
                          cases hm : parseMembers f1 d (skipSpace r4) with
                          | none => rw [hm] at h; exact absurd h (by simp)
                          | some p5 =>
                            obtain ⟨ms1, r5⟩ := p5
                            rw [hm] at h
                            simp only [Option.some.injEq, Prod.mk.injEq] at h
                            obtain ⟨l7, fuelM⟩ := ihM _ _ _ _ hm
                            rw [← h.1, ← h.2]
                            refine ⟨by simp only [List.length_cons]; omega, ?_⟩
                            intro f hf
                            simp only [List.length_cons] at hf
                            cases f with
                            | zero => omega
                            | succ g =>
                              rw [parseMembers, if_neg hq, hsc]
                              simp only
                              rw [hu]
                              simp only
                              rw [hs1]
                              simp only
                              rw [if_neg hcolon, fuelV g (by omega)]
                              simp only
                              rw [hs3]
                              simp only
                              rw [if_neg h125, if_pos h44, fuelM g (by omega)]
                        · rw [if_neg h44] at h; exact absurd h (by simp)
    · intro d s vs r h
      rw [parseElements] at h
      cases hv : parseValue f1 d s with
      | none => rw [hv] at h; exact absurd h (by simp)
      | some p1 =>
        obtain ⟨v, r1⟩ := p1
        rw [hv] at h
        simp only at h
        obtain ⟨l1, fuelV⟩ := ihV _ _ _ _ hv
        have l2 := skipSpace_length r1
        cases hs1 : skipSpace r1 with
        | nil => rw [hs1] at h; exact absurd h (by simp)
        | cons sep r2 =>
          rw [hs1] at h l2
          simp only at h
          simp only [List.length_cons] at l2
          by_cases h93 : sep.val = 93
          · rw [if_pos h93] at h
            simp only [Option.some.injEq, Prod.mk.injEq] at h
            rw [← h.1, ← h.2]
            refine ⟨by omega, ?_⟩
            intro f hf
            cases f with
            | zero => omega
            | succ g =>
              rw [parseElements, fuelV g (by omega)]
              simp only
              rw [hs1]
              simp only
              rw [if_pos h93]
          · rw [if_neg h93] at h
            by_cases h44 : sep.val = 44
            · rw [if_pos h44] at h
              have l3 := skipSpace_length r2
              cases hm : parseElements f1 d (skipSpace r2) with
              | none => rw [hm] at h; exact absurd h (by simp)
              | some p3 =>
                obtain ⟨vs1, r3⟩ := p3
                rw [hm] at h
                simp only [Option.some.injEq, Prod.mk.injEq] at h
                obtain ⟨l4, fuelE⟩ := ihE _ _ _ _ hm
                rw [← h.1, ← h.2]
                refine ⟨by omega, ?_⟩
                intro f hf
                cases f with
                | zero => omega
                | succ g =>
                  rw [parseElements, fuelV g (by omega)]
                  simp only
                  rw [hs1]
                  simp only
                  rw [if_neg h93, if_pos h44, fuelE g (by omega)]
            · rw [if_neg h44] at h; exact absurd h (by simp)

/-- The fuel `parse` starts with is enough: more fuel never changes its
verdict, so a syntax error of the model is never a shortage of fuel. -/
theorem parseValue_fuel_enough (data : GoString) (k : Nat) :
    parseValue (data.length + 1 + k) 0 (skipSpace data)
      = parseValue (data.length + 1) 0 (skipSpace data) := by
  have hsk := skipSpace_length data
  cases hbig : parseValue (data.length + 1 + k) 0 (skipSpace data) with
  | none =>
    cases hsmall : parseValue (data.length + 1) 0 (skipSpace data) with
    | none => rfl
    | some p =>
      obtain ⟨v, r⟩ := p
      have := ((parse_fuel _).1 _ _ _ _ hsmall).2 (data.length + 1 + k) (by omega)
      rw [this] at hbig
      exact absurd hbig (by simp)
  | some p =>
    obtain ⟨v, r⟩ := p
    exact (((parse_fuel _).1 _ _ _ _ hbig).2 (data.length + 1) (by omega)).symm

end json

/-! ## Scanned string literals always unquote -/

namespace utf8

theorem leadInfo_some (p0 : Byte) (sz lo hi : Nat) (h : leadInfo p0 = some (sz, lo, hi)) :
    0x80 ≤ lo ∧ (sz = 2 ∨ sz = 3 ∨ sz = 4) := by
  unfold leadInfo at h
  split_ifs at h <;> simp only [Option.some.injEq, Prod.mk.injEq] at h <;> omega

theorem inRange_low (b : Byte) (lo hi : Nat) (h : (!inRange b lo hi) = false) (hlo : 0x80 ≤ lo) :
    0x80 ≤ b.val := by
  simp only [inRange, Bool.not_eq_false', Bool.and_eq_true, decide_eq_true_eq] at h
  omega

/-- The width `DecodeRune` reports for a lead byte from `0x80` on is 1, or it is
2, 3 or 4 and that many bytes are there, all but the first from `0x80` on. -/
theorem DecodeRune_width (c : Byte) (tl : GoString) (hc : 0x80 ≤ c.val) :
    (DecodeRune (c :: tl)).2 = 1
      ∨ ((DecodeRune (c :: tl)).2 = 2 ∧ ∃ b1 t, tl = b1 :: t ∧ 0x80 ≤ b1.val)
      ∨ ((DecodeRune (c :: tl)).2 = 3
          ∧ ∃ b1 b2 t, tl = b1 :: b2 :: t ∧ 0x80 ≤ b1.val ∧ 0x80 ≤ b2.val)
      ∨ ((DecodeRune (c :: tl)).2 = 4
          ∧ ∃ b1 b2 b3 t, tl = b1 :: b2 :: b3 :: t ∧ 0x80 ≤ b1.val ∧ 0x80 ≤ b2.val
            ∧ 0x80 ≤ b3.val) := by
  unfold DecodeRune
  simp only
  rw [if_neg (by omega)]
  cases hl : leadInfo c with
  | none => left; rfl
  | some info =>
    obtain ⟨sz, lo, hi⟩ := info
    obtain ⟨hlo, hsz⟩ := leadInfo_some c sz lo hi hl
    simp only
    by_cases hshort : tl.length + 1 < sz
    · rw [if_pos hshort]; left; rfl
    · rw [if_neg hshort]
      cases tl with
      | nil => left; rfl
      | cons b1 t1 =>
        simp only
        cases hr1 : !inRange b1 lo hi with
        | true => rw [if_pos rfl]; left; rfl
        | false =>
          have hb1 := inRange_low b1 lo hi hr1 hlo
          rw [if_neg (by simp)]
          by_cases h2 : sz ≤ 2
          · rw [if_pos h2]; right; left
            exact ⟨rfl, b1, t1, rfl, hb1⟩
          · rw [if_neg h2]
            cases t1 with
            | nil => left; rfl
            | cons b2 t2 =>
              simp only
              cases hr2 : !inRange b2 0x80 0xBF with
              | true => rw [if_pos rfl]; left; rfl
              | false =>
                have hb2 := inRange_low b2 0x80 0xBF hr2 (Nat.le_refl _)
                rw [if_neg (by simp)]
                by_cases h3 : sz ≤ 3
                · rw [if_pos h3]; right; right; left
                  exact ⟨rfl, b1, b2, t2, rfl, hb1, hb2⟩
                · rw [if_neg h3]
                  cases t2 with
                  | nil => left; rfl
                  | cons b3 t3 =>
                    simp only
                    cases hr3 : !inRange b3 0x80 0xBF with
                    | true => rw [if_pos rfl]; left; rfl
                    | false =>
                      have hb3 := inRange_low b3 0x80 0xBF hr3 (Nat.le_refl _)
                      rw [if_neg (by simp)]
                      right; right; right
                      exact ⟨rfl, b1, b2, b3, t3, rfl, hb1, hb2, hb3⟩

end utf8
namespace json

theorem keep_some (c : Byte) (x : Option (GoString × GoString)) (raw rest : GoString)
    (h : keep c x = some (raw, rest)) : ∃ raw1, x = some (raw1, rest) ∧ raw = c :: raw1 := by
  cases x with
  | none => exact absurd h (by simp [keep])
  | some p =>
    obtain ⟨a, b⟩ := p
    simp only [keep, Option.some.injEq, Prod.mk.injEq] at h
    exact ⟨a, by rw [h.2], h.1.symm⟩

theorem scan_inString_inv (s raw rest : GoString)
    (h : scanStringFrom StringState.inString s = some (raw, rest)) :
    ∃ c cs, s = c :: cs ∧
      ((c.val = 34 ∧ raw = [] ∧ rest = cs)
        ∨ (c.val = 92 ∧ ∃ raw1, raw = c :: raw1
            ∧ scanStringFrom StringState.inStringEsc cs = some (raw1, rest))
        ∨ (c.val ≠ 34 ∧ c.val ≠ 92 ∧ 32 ≤ c.val ∧ ∃ raw1, raw = c :: raw1
            ∧ scanStringFrom StringState.inString cs = some (raw1, rest))) := by
  cases s with
  | nil => exact absurd h (by simp [scanStringFrom])
  | cons c cs =>
    refine ⟨c, cs, rfl, ?_⟩
    rw [scanStringFrom] at h
    by_cases h34 : c.val = 34
    · rw [if_pos h34] at h
      simp only [Option.some.injEq, Prod.mk.injEq] at h
      exact Or.inl ⟨h34, h.1.symm, h.2.symm⟩
    · rw [if_neg h34] at h
      by_cases h92 : c.val = 92
      · rw [if_pos h92] at h
        obtain ⟨raw1, hx, hraw⟩ := keep_some _ _ _ _ h
        exact Or.inr (Or.inl ⟨h92, raw1, hraw, hx⟩)
      · rw [if_neg h92] at h
        by_cases h32 : c.val < 32
        · rw [if_pos h32] at h; exact absurd h (by simp)
        · rw [if_neg h32] at h
          obtain ⟨raw1, hx, hraw⟩ := keep_some _ _ _ _ h
          exact Or.inr (Or.inr ⟨h34, h92, by omega, raw1, hraw, hx⟩)

theorem scan_hex_inv (st st1 : StringState)
    (hstep : ∀ c cs, scanStringFrom st (c :: cs)
      = if (hexVal c).isSome then keep c (scanStringFrom st1 cs) else none)
    (s raw rest : GoString) (h : scanStringFrom st s = some (raw, rest)) :
    ∃ c cs raw1, s = c :: cs ∧ (hexVal c).isSome = true ∧ raw = c :: raw1
      ∧ scanStringFrom st1 cs = some (raw1, rest) := by
  cases s with
  | nil => cases st <;> exact absurd h (by simp [scanStringFrom])
  | cons c cs =>
    rw [hstep] at h
    by_cases hx : (hexVal c).isSome = true
    · rw [if_pos hx] at h
      obtain ⟨raw1, h1, hraw⟩ := keep_some _ _ _ _ h
      exact ⟨c, cs, raw1, rfl, hx, hraw, h1⟩
    · rw [if_neg hx] at h; exact absurd h (by simp)

theorem scan_esc_inv (s raw rest : GoString)
    (h : scanStringFrom StringState.inStringEsc s = some (raw, rest)) :
    ∃ e cs, s = e :: cs ∧
      ((isSimpleEscape e = true ∧ ∃ raw1, raw = e :: raw1
          ∧ scanStringFrom StringState.inString cs = some (raw1, rest))
        ∨ (isSimpleEscape e = false ∧ e.val = 117 ∧ ∃ h1 h2 h3 h4 cs4 raw4,
            cs = h1 :: h2 :: h3 :: h4 :: cs4 ∧ raw = e :: h1 :: h2 :: h3 :: h4 :: raw4
            ∧ (hexVal h1).isSome = true ∧ (hexVal h2).isSome = true
            ∧ (hexVal h3).isSome = true ∧ (hexVal h4).isSome = true
            ∧ scanStringFrom StringState.inString cs4 = some (raw4, rest))) := by
  cases s with
  | nil => exact absurd h (by simp [scanStringFrom])
  | cons e cs =>
    refine ⟨e, cs, rfl, ?_⟩
    rw [scanStringFrom] at h
    cases hse : isSimpleEscape e with
    | true =>
      rw [hse, if_pos rfl] at h
      obtain ⟨raw1, hx, hraw⟩ := keep_some _ _ _ _ h
      exact Or.inl ⟨rfl, raw1, hraw, hx⟩
    | false =>
      rw [hse, if_neg (by simp)] at h
      by_cases hu : e.val = 117
      · rw [if_pos hu] at h
        obtain ⟨raw1, hx, hraw⟩ := keep_some _ _ _ _ h
        obtain ⟨h1, cs1, r1, hs1, hv1, hr1, hx1⟩ :=
          scan_hex_inv StringState.inStringEscU StringState.inStringEscU1
            (fun c cs => by rw [scanStringFrom]) _ _ _ hx
        obtain ⟨h2, cs2, r2, hs2, hv2, hr2, hx2⟩ :=
          scan_hex_inv StringState.inStringEscU1 StringState.inStringEscU12
            (fun c cs => by rw [scanStringFrom]) _ _ _ hx1
        obtain ⟨h3, cs3, r3, hs3, hv3, hr3, hx3⟩ :=
          scan_hex_inv StringState.inStringEscU12 StringState.inStringEscU123
            (fun c cs => by rw [scanStringFrom]) _ _ _ hx2
        obtain ⟨h4, cs4, r4, hs4, hv4, hr4, hx4⟩ :=
          scan_hex_inv StringState.inStringEscU123 StringState.inString
            (fun c cs => by rw [scanStringFrom]) _ _ _ hx3
        refine Or.inr ⟨rfl, hu, h1, h2, h3, h4, cs4, r4, ?_, ?_, hv1, hv2, hv3, hv4, hx4⟩
        · rw [hs1, hs2, hs3, hs4]
        · rw [hraw, hr1, hr2, hr3, hr4]
      · rw [if_neg hu] at h; exact absurd h (by simp)

theorem scan_high_inv (b : Byte) (cs t rest : GoString) (hb : 0x80 ≤ b.val)
    (h : scanStringFrom StringState.inString cs = some (b :: t, rest)) :
    ∃ cs1, cs = b :: cs1 ∧ scanStringFrom StringState.inString cs1 = some (t, rest) := by
  obtain ⟨c, cs1, hcs, hcase⟩ := scan_inString_inv cs _ rest h
  rcases hcase with ⟨_, hnil, _⟩ | ⟨h92, raw1, hraw, _⟩ | ⟨_, _, _, raw1, hraw, hscan⟩
  · exact absurd hnil (by simp)
  · have hc : b = c := (List.cons.inj hraw).1
    rw [hc] at hb; omega
  · have hparts := List.cons.inj hraw
    refine ⟨cs1, by rw [hcs, hparts.1], ?_⟩
    rw [hparts.2]; exact hscan

theorem simpleEscape_byte (e : Byte) (h : isSimpleEscape e = true) :
    e.val ≠ 117 ∧ ∃ b, escapeByte e = some b := by
  simp only [isSimpleEscape, Bool.or_eq_true, decide_eq_true_eq] at h
  refine ⟨by omega, ?_⟩
  unfold escapeByte
  split_ifs
  all_goals first | exact ⟨_, rfl⟩ | omega

theorem getu4_some_inv (s : GoString) (r : Nat) (h : getu4 s = some r) :
    ∃ b u g1 g2 g3 g4 tl, s = b :: u :: g1 :: g2 :: g3 :: g4 :: tl ∧ b.val = 92 ∧ u.val = 117
      ∧ (hexVal g1).isSome = true ∧ (hexVal g2).isSome = true ∧ (hexVal g3).isSome = true
      ∧ (hexVal g4).isSome = true := by
  unfold getu4 at h
  split at h
  · rename_i b u g1 g2 g3 g4 tl
    by_cases hbu : b.val = 92 ∧ u.val = 117
    · rw [if_pos hbu] at h
      split at h
      · rename_i x1 x2 x3 x4 e1 e2 e3 e4
        exact ⟨b, u, g1, g2, g3, g4, tl, rfl, hbu.1, hbu.2, by rw [e1]; rfl, by rw [e2]; rfl,
          by rw [e3]; rfl, by rw [e4]; rfl⟩
      · exact absurd h (by simp)
    · rw [if_neg hbu] at h; exact absurd h (by simp)
  · exact absurd h (by simp)

theorem getu4_of_hex (c e h1 h2 h3 h4 : Byte) (tl : GoString) (hc : c.val = 92)
    (he : e.val = 117) (v1 : (hexVal h1).isSome = true) (v2 : (hexVal h2).isSome = true)
    (v3 : (hexVal h3).isSome = true) (v4 : (hexVal h4).isSome = true) :
    ∃ rr, getu4 (c :: e :: h1 :: h2 :: h3 :: h4 :: tl) = some rr := by
  obtain ⟨a1, e1⟩ := Option.isSome_iff_exists.mp v1
  obtain ⟨a2, e2⟩ := Option.isSome_iff_exists.mp v2
  obtain ⟨a3, e3⟩ := Option.isSome_iff_exists.mp v3
  obtain ⟨a4, e4⟩ := Option.isSome_iff_exists.mp v4
  refine ⟨a1 * 4096 + a2 * 256 + a3 * 16 + a4, ?_⟩
  unfold getu4
  simp only
  rw [if_pos ⟨hc, he⟩, e1, e2, e3, e4]

/-- Whatever the scanner accepts as the body of a string literal, `unquoteBytes`
resolves: the `ok = false` exit is not taken on scanned input. -/
theorem unquote_after_scan (n : Nat) : ∀ (s raw rest : GoString), s.length ≤ n →
    scanStringFrom StringState.inString s = some (raw, rest) →
    ∃ t, unquoteFrom 0 raw = some t := by
  induction n with
  | zero =>
    intro s raw rest hlen h
    cases s with
    | nil => exact absurd h (by simp [scanStringFrom])
    | cons c cs => simp only [List.length_cons] at hlen; omega
  | succ n ih =>
    intro s raw rest hlen h
    obtain ⟨c, cs, hs, hcase⟩ := scan_inString_inv s raw rest h
    rw [hs] at hlen
    simp only [List.length_cons] at hlen
    rcases hcase with ⟨_, hnil, _⟩ | ⟨h92, raw1, hraw, hesc⟩ | ⟨h34, h92, h32, raw1, hraw, hscan⟩
    · exact ⟨[], by rw [hnil]; rfl⟩
    · have hc : c = toByte 92 := Fin.ext h92
      obtain ⟨e, cs1, hcs, hcase2⟩ := scan_esc_inv cs raw1 rest hesc
      rw [hcs] at hlen
      simp only [List.length_cons] at hlen
      rcases hcase2 with ⟨hsimple, raw2, hraw2, hscan2⟩
        | ⟨_, hu, h1, h2, h3, h4, cs4, raw4, hcs4, hraw4, v1, v2, v3, v4, hscan4⟩
      · obtain ⟨t, ht⟩ := ih cs1 raw2 rest (by omega) hscan2
        obtain ⟨hne, b, hb⟩ := simpleEscape_byte e hsimple
        refine ⟨[b] ++ t, ?_⟩
        rw [hraw, hraw2, hc]
        exact unquoteFrom_step _ _ _ _ 2 (unquoteStep_escape e b hne hb raw2)
          ((unquoteFrom_skip [e] raw2).trans ht)
      · rw [hcs4] at hlen
        simp only [List.length_cons] at hlen
        obtain ⟨t4, ht4⟩ := ih cs4 raw4 rest (by omega) hscan4
        obtain ⟨rr, hrr⟩ := getu4_of_hex c e h1 h2 h3 h4 raw4 h92 hu v1 v2 v3 v4
        rw [hraw, hraw4]
        have hstep : unquoteStep (c :: e :: h1 :: h2 :: h3 :: h4 :: raw4)
            = if 0xD800 ≤ rr ∧ rr < 0xE000 then
                if utf16DecodeRune rr (getu4 raw4) ≠ utf8.RuneError then
                  some (utf8.EncodeRune (utf16DecodeRune rr (getu4 raw4)), 12)
                else some (utf8.EncodeRune utf8.RuneError, 6)
              else some (utf8.EncodeRune rr, 6) := by
          unfold unquoteStep
          simp only
          rw [if_pos h92, if_pos hu, hrr]
          rfl
        have six : ∀ out, unquoteStep (c :: e :: h1 :: h2 :: h3 :: h4 :: raw4) = some (out, 6) →
            ∃ t, unquoteFrom 0 (c :: e :: h1 :: h2 :: h3 :: h4 :: raw4) = some t := by
          intro out ho
          exact ⟨out ++ t4, unquoteFrom_step _ _ _ _ 6 ho
            ((unquoteFrom_skip [e, h1, h2, h3, h4] raw4).trans ht4)⟩
        by_cases hsur : 0xD800 ≤ rr ∧ rr < 0xE000
        · rw [if_pos hsur] at hstep
          by_cases hdec : utf16DecodeRune rr (getu4 raw4) ≠ utf8.RuneError
          · rw [if_pos hdec] at hstep
            cases hg : getu4 raw4 with
            | none => rw [hg] at hdec; exact absurd rfl hdec
            | some r2 =>
              obtain ⟨b, u, g1, g2, g3, g4, tl, hraw4eq, hb92, hu117, _, _, _, _⟩ :=
                getu4_some_inv raw4 r2 hg
              rw [hraw4eq] at hscan4
              obtain ⟨c5, cs5, hcs5, hcase5⟩ := scan_inString_inv cs4 _ rest hscan4
              rcases hcase5 with ⟨_, hnil, _⟩ | ⟨_, raw5, hraw5, hesc5⟩
                | ⟨_, hn92, _, raw5, hraw5, _⟩
              · exact absurd hnil (by simp)
              · obtain ⟨e6, cs6, hcs6, hcase6⟩ := scan_esc_inv cs5 raw5 rest hesc5
                have hraw5eq := (List.cons.inj hraw5).2
                rcases hcase6 with ⟨hsimple6, raw6, hraw6, _⟩
                  | ⟨_, _, k1, k2, k3, k4, cs10, raw10, hcs10, hraw10, _, _, _, _, hscan10⟩
                · rw [hraw6] at hraw5eq
                  have hue : u = e6 := (List.cons.inj hraw5eq).1
                  have hne := (simpleEscape_byte e6 hsimple6).1
                  rw [← hue] at hne
                  exact absurd hu117 hne
                · rw [hraw10] at hraw5eq
                  have htl : tl = raw10 := by
                    simp only [List.cons.injEq] at hraw5eq
                    exact hraw5eq.2.2.2.2.2
                  rw [hcs5, hcs6, hcs10] at hlen
                  simp only [List.length_cons] at hlen
                  obtain ⟨t10, ht10⟩ := ih cs10 raw10 rest (by omega) hscan10
                  refine ⟨_, unquoteFrom_step _ _ _ t10 12 hstep ?_⟩
                  rw [hraw4eq, htl]
                  exact (unquoteFrom_skip [e, h1, h2, h3, h4, b, u, g1, g2, g3, g4] raw10).trans
                    ht10
              · have : b = c5 := (List.cons.inj hraw5).1
                rw [this] at hb92
                exact absurd hb92 hn92
          · rw [if_neg hdec] at hstep
            exact six _ hstep
        · rw [if_neg hsur] at hstep
          exact six _ hstep
    · rw [hraw]
      by_cases hascii : c.val < 0x80
      · obtain ⟨t, ht⟩ := ih cs raw1 rest (by omega) hscan
        exact ⟨[c] ++ t, unquoteFrom_step _ _ _ _ 1 (unquoteStep_ascii c raw1 h32 h34 h92 hascii)
          ht⟩
      · have hhigh : 0x80 ≤ c.val := by omega
        have hstep := unquoteStep_high c raw1 hhigh
        rcases utf8.DecodeRune_width c raw1 hhigh with w1 | ⟨w2, b1, t1, htl, hb1⟩
          | ⟨w3, b1, b2, t2, htl, hb1, hb2⟩ | ⟨w4, b1, b2, b3, t3, htl, hb1, hb2, hb3⟩
        · obtain ⟨t, ht⟩ := ih cs raw1 rest (by omega) hscan
          rw [w1] at hstep
          exact ⟨_, unquoteFrom_step _ _ _ _ 1 hstep ht⟩
        · rw [w2] at hstep
          rw [htl] at hscan
          obtain ⟨cs1, hcs1, hscan1⟩ := scan_high_inv b1 cs t1 rest hb1 hscan
          rw [hcs1] at hlen
          simp only [List.length_cons] at hlen
          obtain ⟨t, ht⟩ := ih cs1 t1 rest (by omega) hscan1
          refine ⟨_, unquoteFrom_step _ _ _ t 2 hstep ?_⟩
          rw [htl]
          exact (unquoteFrom_skip [b1] t1).trans ht
        · rw [w3] at hstep
          rw [htl] at hscan
          obtain ⟨cs1, hcs1, hscan1⟩ := scan_high_inv b1 cs _ rest hb1 hscan
          obtain ⟨cs2, hcs2, hscan2⟩ := scan_high_inv b2 cs1 _ rest hb2 hscan1
          rw [hcs1, hcs2] at hlen
          simp only [List.length_cons] at hlen
          obtain ⟨t, ht⟩ := ih cs2 t2 rest (by omega) hscan2
          refine ⟨_, unquoteFrom_step _ _ _ t 3 hstep ?_⟩
          rw [htl]
          exact (unquoteFrom_skip [b1, b2] t2).trans ht
        · rw [w4] at hstep
          rw [htl] at hscan
          obtain ⟨cs1, hcs1, hscan1⟩ := scan_high_inv b1 cs _ rest hb1 hscan
          obtain ⟨cs2, hcs2, hscan2⟩ := scan_high_inv b2 cs1 _ rest hb2 hscan1
          obtain ⟨cs3, hcs3, hscan3⟩ := scan_high_inv b3 cs2 _ rest hb3 hscan2
          rw [hcs1, hcs2, hcs3] at hlen
          simp only [List.length_cons] at hlen
          obtain ⟨t, ht⟩ := ih cs3 t3 rest (by omega) hscan3
          refine ⟨_, unquoteFrom_step _ _ _ t 4 hstep ?_⟩
          rw [htl]
          exact (unquoteFrom_skip [b1, b2, b3] t3).trans ht

/-- The scanned body of a string literal always unquotes. -/
theorem unquote_of_scanString (s raw rest : GoString) (h : scanString s = some (raw, rest)) :
    ∃ t, unquote raw = some t :=
  unquote_after_scan s.length s raw rest (Nat.le_refl _) h

end json

end GoSecrets
